import Mathlib

/-!
Verification of the transport/session layer of `ib_insync/client.py`
(class `Client` and its helpers): frame codec, outbound rate limiter,
handshake and readiness state machine, and the inbound dispatch loop.

Byte strings are modelled as `List ℕ` (one entry per byte; the framing
logic only ever compares bytes against the separator `0`, so no range
invariant is needed).  Python strings are modelled as Lean `String`
(`List Char`); the UTF-8 encoding step `str.encode()` is modelled as the
list of code points, which is faithful for the separator logic because
UTF-8 maps the NUL character and only the NUL character to byte 0.
Event-loop timestamps are modelled as integers: the rate-limiter logic
only uses comparison and addition of the constant interval, so any
linearly ordered additive group carries the argument.
-/

namespace IBClient

/-! ### Frame codec: `Client._prefix` (line 196) and the framing part of
`Client._onSocketHasData` (lines 218-229) -/

/-- `struct.unpack('>I', b)[0]` for a 4-byte big-endian buffer. -/
def be32 : List ℕ → ℕ
  | [b0, b1, b2, b3] => ((b0 * 256 + b1) * 256 + b2) * 256 + b3
  | _ => 0

/-- `struct.pack('>I', n)`: 4-byte big-endian encoding of `n` (defined for
`n < 2 ^ 32`; Python raises for larger values). -/
def be32enc (n : ℕ) : List ℕ :=
  [n / 16777216 % 256, n / 65536 % 256, n / 256 % 256, n % 256]

/-- `Client._prefix`: prefix a message with its 4-byte length. -/
def prefixMsg (msg : List ℕ) : List ℕ :=
  be32enc msg.length ++ msg

/-- Python `bytes.split(sep)` / `str.split(sep)` for a one-element
separator: splits on every occurrence, keeping empty pieces, and always
returning at least one piece. -/
def splitSep {α : Type} [DecidableEq α] (sep : α) : List α → List (List α)
  | [] => [[]]
  | b :: rest =>
    if b = sep then [] :: splitSep sep rest
    else
      match splitSep sep rest with
      | [] => [[b]]
      | f :: fs => (b :: f) :: fs

/-- One iteration step plus recursion of the frame-extraction loop of
`Client._onSocketHasData` (lines 218-229), with explicit fuel so that the
definition is structural (each extracted frame consumes at least 4 bytes,
so `buf.length` is always enough fuel): stop if at most 4 bytes are
buffered (`if len(self._data) <= 4: break`); otherwise read the 4-byte
big-endian body length, stop if the buffer is shorter than the declared
frame end (`if len(self._data) < msgEnd: break`); otherwise slice out the
body, split it on the NUL separator, drop the trailing empty piece, and
continue on the remainder. -/
def extractGo : ℕ → List ℕ → List (List (List ℕ)) × List ℕ
  | 0, buf => ([], buf)
  | fuel + 1, buf =>
    if buf.length ≤ 4 then ([], buf)
    else
      let msgEnd := 4 + be32 (buf.take 4)
      if buf.length < msgEnd then ([], buf)
      else
        let msg := (buf.take msgEnd).drop 4
        let rest := buf.drop msgEnd
        let r := extractGo fuel rest
        (((splitSep 0 msg).dropLast) :: r.1, r.2)

/-- The frame-extraction loop of `Client._onSocketHasData` applied to a
buffer: returns the extracted field lists in order together with the
residual (not-yet-framed) buffer. -/
def extractAll (buf : List ℕ) : List (List (List ℕ)) × List ℕ :=
  extractGo buf.length buf

/-- Deliver a sequence of byte chunks one at a time to the framing loop,
accumulating the not-yet-framed residue in the buffer exactly as
`self._data += data` does; returns all decoded field lists in order and
the final residual buffer. -/
def feedChunks (buf : List ℕ) : List (List ℕ) → List (List (List ℕ)) × List ℕ
  | [] => ([], buf)
  | c :: cs =>
    let r := extractAll (buf ++ c)
    let r2 := feedChunks r.2 cs
    (r.1 ++ r2.1, r2.2)

end IBClient

namespace IBClient

/-! ### Outbound encoder: `Client._encode` (lines 276-304) -/

/-- `ibapi.common.UNSET_INTEGER` (`2 ** 31 - 1`). -/
def UNSET_INTEGER : Int := 2147483647

/-- The instrument descriptor serialized by `Client._encode`
(`ib_insync.contract.Contract`, a plain record; only the attributes read
by `_encode` are modelled).  `strike` is a Python float; its value is
modelled as the string `str()` produces for it, since the encoder only
ever stringifies it. -/
structure Contract where
  conId : Int
  symbol : String
  secType : String
  lastTradeDateOrContractMonth : String
  strike : String
  right : String
  multiplier : String
  exchange : String
  primaryExchange : String
  currency : String
  localSymbol : String
  tradingClass : String
  includeExpired : Bool

/-- A heterogeneous field value passed to `Client._encode`: `None`, the
`UNSET_DOUBLE` float sentinel, an instrument descriptor, a list of
tag/value pairs, a boolean, an integer (Python `int`, which renders empty
when equal to `UNSET_INTEGER`), or a string. -/
inductive FieldVal where
  | noneVal : FieldVal
  | unsetDouble : FieldVal
  | contractVal : Contract → FieldVal
  | tagListVal : List (String × String) → FieldVal
  | boolVal : Bool → FieldVal
  | intVal : Int → FieldVal
  | strVal : String → FieldVal

/-- The per-field rendering rules of `Client._encode`: sentinels render
empty, a `Contract` renders as its 13 sub-fields joined by NUL, a tag
list as concatenated `tag=value;` pairs, booleans as `1`/`0`, everything
else via `str()`. -/
def render : FieldVal → String
  | FieldVal.noneVal => ""
  | FieldVal.unsetDouble => ""
  | FieldVal.contractVal c =>
      toString c.conId ++ "\x00" ++ c.symbol ++ "\x00" ++ c.secType ++ "\x00" ++
        c.lastTradeDateOrContractMonth ++ "\x00" ++ c.strike ++ "\x00" ++
        c.right ++ "\x00" ++ c.multiplier ++ "\x00" ++ c.exchange ++ "\x00" ++
        c.primaryExchange ++ "\x00" ++ c.currency ++ "\x00" ++
        c.localSymbol ++ "\x00" ++ c.tradingClass ++ "\x00" ++
        (if c.includeExpired then "1" else "0")
  | FieldVal.tagListVal l =>
      String.join (l.map (fun p => p.1 ++ "=" ++ p.2 ++ ";"))
  | FieldVal.boolVal b => if b then "1" else "0"
  | FieldVal.intVal n => if n = UNSET_INTEGER then "" else toString n
  | FieldVal.strVal s => s

/-- `Client._encode`: render each field and write it followed by the NUL
separator into the output string. -/
def encode : List FieldVal → String
  | [] => ""
  | f :: fs => render f ++ "\x00" ++ encode fs

/-- `str.encode()` modelled as the list of code points (see the module
comment: faithful for the NUL-separator framing logic). -/
def strBytes (s : String) : List ℕ :=
  s.data.map Char.toNat

end IBClient

namespace IBClient

/-- A default-constructed instrument descriptor, as
`ib_insync.contract.Contract()` would yield (`strike` stringifies to
`0.0`). -/
def defaultContract : Contract :=
  ⟨0, "", "", "", "0.0", "", "", "", "", "", "", "", false⟩

end IBClient

namespace IBClient

/-! ### Outbound rate limiter: `Client.MaxRequests`/`RequestsInterval`
(line 68) and `Client.sendMsg` (lines 173-194).

`Client.sendMsg` is invoked either by a caller submitting a message or
by the event loop firing a scheduled flush (`loop.call_at(...,
self.sendMsg, None)`).  An invocation is modelled as an `Ev`: its
`loop.time()` value, the submitted message (`none` for a flush), and
whether this invocation is a previously scheduled flush firing (used
only to maintain the ghost list of scheduled-but-not-yet-fired flush
callbacks).  Timestamps are integers (see module comment).  The frame
actually handed to the transport for a message `m` is
`prefixMsg (strBytes m)`, a per-message pure function, so counting and
ordering of transmissions are stated on the messages themselves. -/

/-- `Client.MaxRequests` (250 requests ...). -/
def MaxRequests : ℕ := 250

/-- `Client.RequestsInterval` (... per 5 seconds). -/
def RequestsInterval : ℤ := 5

/-- One invocation of `Client.sendMsg`. -/
structure Ev where
  t : ℤ
  msg : Option String
  fired : Bool

/-- The rate-limiter state: `self._msgQ`, `self._timeQ`,
`self._isThrottling`, plus the ghost list `pending` of scheduled flush
times that have not fired yet (the code keeps no such handle; the ghost
records each `loop.call_at` it performs). -/
structure SendState where
  msgQ : List String
  timeQ : List ℤ
  isThrottling : Bool
  pending : List ℤ

/-- The state after `Client.reset` (`self._msgQ = deque()`,
`self._timeQ = deque()`, `self._isThrottling = False`); no flush is
scheduled. -/
def initSend : SendState := ⟨[], [], false, []⟩

/-- The eviction loop `while times and t - times[0] >
Client.RequestsInterval: times.popleft()`. -/
def evict (t : ℤ) : List ℤ → List ℤ
  | [] => []
  | s :: rest => if RequestsInterval < t - s then evict t rest else s :: rest

/-- The drain loop `while msgs and len(times) < Client.MaxRequests`: pop
the oldest queued message, hand it to the transport, and record the
current time.  Returns the remaining queue, the new time window and the
transmitted messages in order. -/
def drain (t : ℤ) : List String → List ℤ → List String × List ℤ × List String
  | [], times => ([], times, [])
  | m :: ms, times =>
    if times.length < MaxRequests then
      let r := drain t ms (times ++ [t])
      (r.1, r.2.1, m :: r.2.2)
    else (m :: ms, times, [])

/-- `Client.sendMsg` (lines 173-194): evict expired window entries,
enqueue the submitted message if any (`if msg:` — Python truthiness, so
an empty string is not enqueued), drain the queue while the window has
room, and, if messages remain queued, mark throttling and schedule a
flush at `times[0] + RequestsInterval`; otherwise clear the throttling
flag.  Returns the new state and the messages handed to
`self.conn.sendMsg` by this invocation, in order.  (`times[0]` is total
here via `headD`: when the queue is non-empty the window holds
`MaxRequests > 0` entries.) -/
def sendMsg (st : SendState) (e : Ev) : SendState × List String :=
  let times0 := evict e.t st.timeQ
  let pending0 := if e.fired then st.pending.drop 1 else st.pending
  let msgs0 := match e.msg with
    | none => st.msgQ
    | some m => if m = "" then st.msgQ else st.msgQ ++ [m]
  let r := drain e.t msgs0 times0
  if r.1.isEmpty then
    ({ msgQ := r.1, timeQ := r.2.1, isThrottling := false, pending := pending0 },
      r.2.2)
  else
    ({ msgQ := r.1, timeQ := r.2.1, isThrottling := true,
       pending := pending0 ++ [r.2.1.headD 0 + RequestsInterval] },
      r.2.2)

/-- Run a sequence of `sendMsg` invocations, collecting every
transmitted message tagged with its transmission time. -/
def runTrace (st : SendState) : List Ev → SendState × List (ℤ × String)
  | [] => (st, [])
  | e :: rest =>
    let r := sendMsg st e
    let r2 := runTrace r.1 rest
    (r2.1, r.2.map (fun m => (e.t, m)) ++ r2.2)

/-- The messages actually enqueued by a sequence of invocations (those
passing the `if msg:` truthiness check), in submission order. -/
def submittedOf : List Ev → List String
  | [] => []
  | e :: rest =>
    (match e.msg with
      | none => []
      | some m => if m = "" then [] else [m]) ++ submittedOf rest

/-- Invocation times are nondecreasing starting from `t0`
(`loop.time()` is monotone within an event loop). -/
def timesMonoB : ℤ → List Ev → Bool
  | _, [] => true
  | t0, e :: rest => decide (t0 ≤ e.t) && timesMonoB e.t rest

/-- Invocation times along a trace are nondecreasing. -/
def eventsMonoB : List Ev → Bool
  | [] => true
  | e :: rest => timesMonoB e.t rest

/-- Membership of a timestamp in the closed sliding window
`[u, u + RequestsInterval]`. -/
def inWindow (u s : ℤ) : Bool :=
  decide (u ≤ s ∧ s ≤ u + RequestsInterval)

/-- Invariant carried along a trace of `sendMsg` invocations: `log` is
the list of all transmission timestamps so far, `tl` the time of the
latest invocation.  The window `self._timeQ` is a suffix of the log
whose dropped prefix is strictly older than the interval, holds at most
`MaxRequests` entries, and the log never exceeds `MaxRequests` entries
inside the window starting at `u`. -/
def SendInv (log : List ℤ) (st : SendState) (tl u : ℤ) : Prop :=
  (∃ d, log = d ++ st.timeQ ∧ ∀ s ∈ d, RequestsInterval < tl - s) ∧
  st.timeQ.length ≤ MaxRequests ∧
  log.countP (inWindow u) ≤ MaxRequests

end IBClient

namespace IBClient

/-- `msgs0`: the queue after the `if msg: msgs.append(msg)` step. -/
def msgsAfterEnqueue (q : List String) : Option String → List String
  | none => q
  | some m => if m = "" then q else q ++ [m]

end IBClient

namespace IBClient

/-! ### Session state machine: `Client.reset` (84-95), accessors
(101-132), `_onSocketHasData` (210-253), `_decode` (306-347).

Modelling notes.  Python mutable attributes become fields of
`ClientState`.  `self.decoder.interpret(fields)` and the wrapper
callbacks are external collaborators; calling them is modelled as
emitting an `Action` (the protocol interpreter, assumed correct, is not
modelled as failing).  `int(x)` on a field is modelled by
`parseIntBytes`, faithful on the ASCII-decimal byte strings the protocol
uses; any other input is a parse failure (`ValueError`).  `float(x)`
conversions in the fast-path ticks are not modelled: the raw bytes are
carried in the action (a failing `float()` would be one more instance of
the caught decode error).  A `ValueError` raised by `int(version)`
inside the handshake branch is *outside* the `try/except` and aborts the
whole delivery; this is the Boolean `abort` component threaded through
the loop. -/

/-- `EClient` connection states (`DISCONNECTED`, `CONNECTING`,
`CONNECTED`); the spec names the post-handshake state `NEGOTIATED`,
which corresponds to `EClient.CONNECTED` as set on line 240. -/
inductive ConnState where
  | disconnected : ConnState
  | connecting : ConnState
  | connected : ConnState
deriving DecidableEq

/-- An observable effect of frame processing: a call into the wrapper, a
forward to the external protocol interpreter, the start-API control
frame being sent, or the logging of a caught decode failure. -/
inductive Action where
  | startApiA : Action
  | connectAckA : Action
  | priceSizeTickA (reqId tickType : ℕ) (price : List ℕ) (size : ℕ) : Action
  | tickSizeA (reqId tickType size : ℕ) : Action
  | updateMktDepthA (reqId position operation side : ℕ) (price : List ℕ)
      (size : ℕ) : Action
  | tickStringA (reqId tickType : ℕ) (value : String) : Action
  | interpretA (fields : List (List ℕ)) : Action
  | decodeFailedA : Action
deriving DecidableEq

/-- The session-relevant state of a `Client`. -/
structure ClientState where
  connState : ConnState
  serverVersion : Option ℕ
  connTime : Option (List ℕ)
  readyEvent : Bool
  reqIdSeq : ℕ
  accounts : Option (List (List Char))
  data : List ℕ
  startTime : ℤ
  numBytesRecv : ℕ
  numMsgRecv : ℕ
  hasPriceSizeTick : Bool
deriving DecidableEq

/-- The state established by `Client.reset` (lines 84-95): inbound
buffer, ready event, request-id counter, accounts and counters all
cleared.  The `EClient.reset(self)` part is not in the analysed source
file; modelled from the spec: "full reset: all Session fields ... are
cleared" (connection state `DISCONNECTED`, no server version, no
connection timestamp).  `time.time()` at reset is taken as 0, and the
wrapper is taken to lack the optional `priceSizeTick` handler. -/
def resetState : ClientState :=
  ⟨ConnState.disconnected, none, none, false, 0, none, [], 0, 0, 0, false⟩

/-- Python `int()` on a byte string, modelled on ASCII-decimal input
(the only shape the protocol uses); anything else — including the empty
string — is a failure (`ValueError`), yielding `none`. -/
def parseIntBytes (l : List ℕ) : Option ℕ :=
  if l.isEmpty then none
  else l.foldl (fun acc b => acc.bind (fun a =>
    if 48 ≤ b ∧ b ≤ 57 then some (a * 10 + (b - 48)) else none)) (some 0)

/-- Python truthiness of `not self.serverVersion_`: `None` and `0` are
falsy. -/
def svFalsyB : Option ℕ → Bool
  | none => true
  | some v => v == 0

/-- Python truthiness of `self._accounts`: `None` and the empty list are
falsy (`str.split` never returns an empty list, so a stored account list
is always truthy). -/
def accountsTruthy : Option (List (List Char)) → Bool
  | none => false
  | some l => !l.isEmpty

/-- `bytes.decode()` modelled as code points (see module comment). -/
def bytesToChars (l : List ℕ) : List Char :=
  l.map Char.ofNat

/-- The message-kind identifier of a decoded frame: `int(fields[0])`. -/
def msgIdOfFrame (fields : List (List ℕ)) : Option ℕ :=
  fields.head?.bind parseIntBytes

/-- `Client._decode` (lines 306-347): parse the message id, fast-path
the four high-frequency kinds (1 only if the wrapper registered the
combined handler, else it falls through to the interpreter), snoop
kinds 9 (next-valid-id: seed the counter, ready if accounts are already
in) and 15 (managed-accounts: store the split list, ready if the counter
is already non-zero) and still forward them — like every other kind — to
the interpreter.  Any `IndexError`/`ValueError` from indexing,
destructuring or `int()` is an `error` (caught by the caller's
`try/except`). -/
def decodeFields (st : ClientState) (fields : List (List ℕ)) :
    Except Unit (ClientState × List Action) :=
  match fields with
  | [] => Except.error ()
  | f0 :: _ =>
    match parseIntBytes f0 with
    | none => Except.error ()
    | some msgId =>
      if msgId = 1 then
        if st.hasPriceSizeTick then
          match fields with
          | [_, _, reqId, tickType, price, size, _] =>
            match parseIntBytes reqId, parseIntBytes tickType, parseIntBytes size with
            | some r, some tt, some sz =>
              Except.ok (st, [Action.priceSizeTickA r tt price sz])
            | _, _, _ => Except.error ()
          | _ => Except.error ()
        else Except.ok (st, [Action.interpretA fields])
      else if msgId = 2 then
        match fields with
        | [_, _, reqId, tickType, size] =>
          match parseIntBytes reqId, parseIntBytes tickType, parseIntBytes size with
          | some r, some tt, some sz => Except.ok (st, [Action.tickSizeA r tt sz])
          | _, _, _ => Except.error ()
        | _ => Except.error ()
      else if msgId = 12 then
        match fields with
        | [_, _, reqId, position, operation, side, price, size] =>
          match parseIntBytes reqId, parseIntBytes position, parseIntBytes operation,
              parseIntBytes side, parseIntBytes size with
          | some r, some pos, some op, some sd, some sz =>
            Except.ok (st, [Action.updateMktDepthA r pos op sd price sz])
          | _, _, _, _, _ => Except.error ()
        | _ => Except.error ()
      else if msgId = 46 then
        match fields with
        | [_, _, reqId, tickType, value] =>
          match parseIntBytes reqId, parseIntBytes tickType with
          | some r, some tt =>
            Except.ok (st, [Action.tickStringA r tt (String.mk (bytesToChars value))])
          | _, _ => Except.error ()
        | _ => Except.error ()
      else if msgId = 9 then
        match fields with
        | [_, _, validId] =>
          match parseIntBytes validId with
          | none => Except.error ()
          | some v =>
            -- `self._reqIdSeq = int(validId)`, then `if self._accounts:`
            -- (which the assignment does not touch) sets the ready event
            Except.ok
              ((if accountsTruthy st.accounts then
                  { st with reqIdSeq := v, readyEvent := true }
                else { st with reqIdSeq := v }),
               [Action.interpretA fields])
        | _ => Except.error ()
      else if msgId = 15 then
        match fields with
        | [_, _, accts] =>
          -- `self._accounts = accts.decode().split(',')`, then
          -- `if self._reqIdSeq:` (untouched by the assignment)
          Except.ok
            ((if st.reqIdSeq ≠ 0 then
                { st with accounts := some (splitSep ',' (bytesToChars accts)),
                          readyEvent := true }
              else
                { st with accounts := some (splitSep ',' (bytesToChars accts)) }),
             [Action.interpretA fields])
        | _ => Except.error ()
      else Except.ok (st, [Action.interpretA fields])

/-- The handshake-reply detection of `_onSocketHasData` (line 235):
`not self.serverVersion_ and len(fields) == 2`. -/
def handshakeCondB (st : ClientState) (fields : List (List ℕ)) : Bool :=
  svFalsyB st.serverVersion && fields.length == 2

/-- Per-frame handling inside `_onSocketHasData` (lines 235-250): the
first two-field frame before a server version is recorded is the
negotiation reply (store `int(version)` and the timestamp, state
`CONNECTED`, send start-API, ack); every other frame goes to `_decode`
under `try/except`, a failure being logged without propagating.  The
Boolean result marks an *uncaught* exception (`int(version)` failing in
the handshake branch, which Python raises after `self.connTime` was
already assigned), which aborts the delivery loop. -/
def handleFrame (st : ClientState) (fields : List (List ℕ)) :
    ClientState × List Action × Bool :=
  if handshakeCondB st fields then
    match fields with
    | [version, ct] =>
      let st1 := { st with connTime := some ct }
      match parseIntBytes version with
      | none => (st1, [], true)
      | some v =>
        ({ st1 with serverVersion := some v, connState := ConnState.connected },
          [Action.startApiA, Action.connectAckA], false)
    | _ => (st, [], false)
  else
    match decodeFields st fields with
    | Except.ok r => (r.1, r.2, false)
    | Except.error _ => (st, [Action.decodeFailedA], false)

/-- Process a list of already-extracted frames in order, stopping early
only on an uncaught (aborting) exception; returns the final state, all
emitted actions, and the abort flag. -/
def runFrames (st : ClientState) : List (List (List ℕ)) →
    ClientState × List Action × Bool
  | [] => (st, [], false)
  | fields :: rest =>
    let h := handleFrame st fields
    if h.2.2 then (h.1, h.2.1, true)
    else
      let r := runFrames h.1 rest
      (r.1, h.2.1 ++ r.2.1, r.2.2)

/-- The full loop body of `_onSocketHasData` (lines 218-250): extract
one frame at a time (same stop conditions as `extractGo`), bump
`_numMsgRecv`, handle the frame, and continue; an uncaught exception
leaves the already-shrunk buffer and stops.  Fuel-structured like
`extractGo`. -/
def processGo : ℕ → ClientState → List ℕ → ClientState × List ℕ × List Action
  | 0, st, buf => (st, buf, [])
  | fuel + 1, st, buf =>
    if buf.length ≤ 4 then (st, buf, [])
    else
      let msgEnd := 4 + be32 (buf.take 4)
      if buf.length < msgEnd then (st, buf, [])
      else
        let msg := (buf.take msgEnd).drop 4
        let rest := buf.drop msgEnd
        let fields := (splitSep 0 msg).dropLast
        let h := handleFrame { st with numMsgRecv := st.numMsgRecv + 1 } fields
        if h.2.2 then (h.1, rest, h.2.1)
        else
          let r := processGo fuel h.1 rest
          (r.1, r.2.1, h.2.1 ++ r.2.2)

/-- The extraction-and-dispatch loop applied to a buffer. -/
def processAll (st : ClientState) (buf : List ℕ) :
    ClientState × List ℕ × List Action :=
  processGo buf.length st buf

/-- `Client._onSocketHasData` (lines 210-253): append the delivered
bytes to the buffer, count them, and run the extraction-and-dispatch
loop; the unframed residue stays in `self._data`.  (The optional
`tcpDataArrived`/`tcpDataProcessed` hooks and debug logging, pure
observers, are omitted.) -/
def onSocketHasData (st : ClientState) (data : List ℕ) :
    ClientState × List Action :=
  let st0 := { st with data := [], numBytesRecv := st.numBytesRecv + data.length }
  let r := processAll st0 (st.data ++ data)
  ({ r.1 with data := r.2.1 }, r.2.2)

/-- `Client.isReady` (line 101): returns the ready flag. -/
def isReady (st : ClientState) : Bool :=
  st.readyEvent

/-- The *call* `client.isReady()` viewed uniformly with the other
accessors as an `Except` whose `error` is a raised
`AssertionError('Not connected')`: the method body contains no
assertion, so the call always returns `ok` with the flag value. -/
def callIsReady (st : ClientState) : Except String Bool :=
  Except.ok st.readyEvent

/-- `Client.getReqId` (lines 118-125): assert readiness, return the
counter, post-increment it. -/
def getReqId (st : ClientState) : Except String (ℕ × ClientState) :=
  if st.readyEvent then
    Except.ok (st.reqIdSeq, { st with reqIdSeq := st.reqIdSeq + 1 })
  else Except.error "Not connected"

/-- `Client.getAccounts` (lines 127-132): assert readiness, return the
stored account-name list. -/
def getAccounts (st : ClientState) : Except String (Option (List (List Char))) :=
  if st.readyEvent then Except.ok st.accounts
  else Except.error "Not connected"

/-- The record built by `Client.connectionStats` (lines 107-116). -/
structure Stats where
  startTime : ℤ
  duration : ℤ
  numBytesRecv : ℕ
  numBytesSent : ℕ
  numMsgRecv : ℕ
  numMsgSent : ℕ
deriving DecidableEq

/-- `Client.connectionStats`: assert readiness, then snapshot uptime and
counters (`now` models `time.time()`; the two `self.conn` counters are
passed in, the connection object being a separate entity). -/
def connectionStats (st : ClientState) (now : ℤ)
    (connBytesSent connMsgSent : ℕ) : Except String Stats :=
  if st.readyEvent then
    Except.ok ⟨st.startTime, now - st.startTime, st.numBytesRecv, connBytesSent,
      st.numMsgRecv, connMsgSent⟩
  else Except.error "Not connected"

/-- A session-level event: an inbound decoded frame, or a caller
invoking `getReqId`. -/
inductive SEv where
  | frame (fields : List (List ℕ)) : SEv
  | getReq : SEv

/-- Whether a session event is a next-valid-id (kind 9) frame. -/
def isMsg9Ev : SEv → Bool
  | SEv.frame fs => msgIdOfFrame fs == some 9
  | SEv.getReq => false

/-- Run session events in order, collecting the request ids handed out
by successful `getReqId` calls (a call while not ready raises to the
caller and leaves the session unchanged); frame handling as in
`runFrames` including the abort flag. -/
def runSession (st : ClientState) : List SEv → ClientState × List ℕ × Bool
  | [] => (st, [], false)
  | SEv.getReq :: rest =>
    match getReqId st with
    | Except.ok r =>
      let s := runSession r.2 rest
      (s.1, r.1 :: s.2.1, s.2.2)
    | Except.error _ => runSession st rest
  | SEv.frame fields :: rest =>
    let h := handleFrame st fields
    if h.2.2 then (h.1, [], true)
    else runSession h.1 rest

/-- A length-prefixed wire frame for the given fields. -/
def frameBytesOf (fields : List (List ℕ)) : List ℕ :=
  prefixMsg ((fields.map (fun f => f ++ [0])).flatten)

/-- The session state right after the negotiation reply of Scenario A:
the handshake frame `["151", "20240101 12:00:00"]` delivered to the
reset state. -/
def negSt : ClientState :=
  (onSocketHasData resetState
    (frameBytesOf [strBytes "151", strBytes "20240101 12:00:00"])).1

/-- A next-valid-id frame `["9", "1", "17"]` (Scenario C). -/
def frame9_17 : List (List ℕ) :=
  [strBytes "9", strBytes "1", strBytes "17"]

/-- A managed-accounts frame `["15", "1", "DU1234,DU5678"]`
(Scenario C). -/
def frame15du : List (List ℕ) :=
  [strBytes "15", strBytes "1", strBytes "DU1234,DU5678"]

end IBClient

namespace IBClient

/-! ### Helper lemmas for the codec -/

theorem extractGo_congr : ∀ f1 f2 buf, buf.length ≤ f1 → buf.length ≤ f2 →
    extractGo f1 buf = extractGo f2 buf := by
  intro f1
  induction f1 with
  | zero =>
    intro f2 buf h1 _
    have : buf = [] := List.length_eq_zero.mp (Nat.le_zero.mp h1)
    subst this
    cases f2 with
    | zero => rfl
    | succ f2 => simp [extractGo]
  | succ f1 ih =>
    intro f2 buf h1 h2
    cases f2 with
    | zero =>
      have : buf = [] := List.length_eq_zero.mp (Nat.le_zero.mp h2)
      subst this
      simp [extractGo]
    | succ f2 =>
      show extractGo (f1 + 1) buf = extractGo (f2 + 1) buf
      by_cases h4 : buf.length ≤ 4
      · simp [extractGo, h4]
      · by_cases hc : buf.length < 4 + be32 (buf.take 4)
        · simp [extractGo, h4, hc]
        · have hrest : (buf.drop (4 + be32 (buf.take 4))).length ≤ f1 := by
            simp only [List.length_drop]
            omega
          have hrest2 : (buf.drop (4 + be32 (buf.take 4))).length ≤ f2 := by
            simp only [List.length_drop]
            omega
          simp only [extractGo, if_neg h4, if_neg hc]
          rw [ih f2 (buf.drop (4 + be32 (buf.take 4))) hrest hrest2]

theorem extractAll_stop {buf : List ℕ}
    (h : buf.length ≤ 4 ∨ buf.length < 4 + be32 (buf.take 4)) :
    extractAll buf = ([], buf) := by
  unfold extractAll
  cases hn : buf.length with
  | zero => rfl
  | succ n =>
    show extractGo (n + 1) buf = ([], buf)
    simp only [extractGo]
    rcases h with h | h
    · rw [if_pos h]
    · by_cases h4 : buf.length ≤ 4
      · rw [if_pos h4]
      · rw [if_neg h4, if_pos h]

theorem extractAll_step {buf : List ℕ}
    (h4 : ¬ buf.length ≤ 4)
    (hc : ¬ buf.length < 4 + be32 (buf.take 4)) :
    extractAll buf =
      (((splitSep 0 (((buf.take (4 + be32 (buf.take 4)))).drop 4)).dropLast) ::
          (extractAll (buf.drop (4 + be32 (buf.take 4)))).1,
        (extractAll (buf.drop (4 + be32 (buf.take 4)))).2) := by
  unfold extractAll
  cases hn : buf.length with
  | zero => omega
  | succ n =>
    have hgo : extractGo (n + 1) buf =
        (((splitSep 0 (((buf.take (4 + be32 (buf.take 4)))).drop 4)).dropLast) ::
            (extractGo n (buf.drop (4 + be32 (buf.take 4)))).1,
          (extractGo n (buf.drop (4 + be32 (buf.take 4)))).2) := by
      simp only [extractGo]
      rw [if_neg h4, if_neg hc]
    rw [hgo]
    have hrest : (buf.drop (4 + be32 (buf.take 4))).length ≤ n := by
      simp only [List.length_drop]
      omega
    rw [extractGo_congr n (buf.drop (4 + be32 (buf.take 4))).length _ hrest le_rfl]

/-- The residual buffer of an extraction pass is itself non-extractable:
it is at most 4 bytes long or shorter than its declared frame end. -/
theorem extractAll_residue_spec (buf : List ℕ) :
    (extractAll buf).2.length ≤ 4 ∨
      (extractAll buf).2.length < 4 + be32 ((extractAll buf).2.take 4) := by
  generalize hn : buf.length = n
  induction n using Nat.strong_induction_on generalizing buf with
  | _ n ih =>
    by_cases h4 : buf.length ≤ 4
    · rw [extractAll_stop (Or.inl h4)]
      exact Or.inl h4
    · by_cases hc : buf.length < 4 + be32 (buf.take 4)
      · rw [extractAll_stop (Or.inr hc)]
        exact Or.inr hc
      · rw [extractAll_step h4 hc]
        exact ih (buf.drop (4 + be32 (buf.take 4))).length
          (by simp only [List.length_drop]; omega)
          (buf.drop (4 + be32 (buf.take 4))) rfl

/-- Appending more bytes to the buffer does not change the frames already
extractable from it: extraction of `buf ++ extra` first yields exactly
the frames of `buf`, then continues on `buf`'s residue with `extra`
appended. -/
theorem extractAll_append (buf extra : List ℕ) :
    extractAll (buf ++ extra) =
      ((extractAll buf).1 ++ (extractAll ((extractAll buf).2 ++ extra)).1,
        (extractAll ((extractAll buf).2 ++ extra)).2) := by
  generalize hn : buf.length = n
  induction n using Nat.strong_induction_on generalizing buf with
  | _ n ih =>
    by_cases h4 : buf.length ≤ 4
    · rw [extractAll_stop (Or.inl h4)]
      simp
    · by_cases hc : buf.length < 4 + be32 (buf.take 4)
      · rw [extractAll_stop (Or.inr hc)]
        simp
      · have hlen : (buf ++ extra).length = buf.length + extra.length := by
          simp
        have htake4 : (buf ++ extra).take 4 = buf.take 4 := by
          rw [List.take_append_of_le_length (by omega)]
        have h4' : ¬ (buf ++ extra).length ≤ 4 := by omega
        have hc' : ¬ (buf ++ extra).length < 4 + be32 ((buf ++ extra).take 4) := by
          rw [htake4]; omega
        rw [extractAll_step h4' hc', extractAll_step h4 hc]
        rw [htake4]
        have htakeE : (buf ++ extra).take (4 + be32 (buf.take 4)) =
            buf.take (4 + be32 (buf.take 4)) := by
          rw [List.take_append_of_le_length (by omega)]
        have hdropE : (buf ++ extra).drop (4 + be32 (buf.take 4)) =
            buf.drop (4 + be32 (buf.take 4)) ++ extra := by
          rw [List.drop_append_of_le_length (by omega)]
        rw [htakeE, hdropE]
        have hrec := ih (buf.drop (4 + be32 (buf.take 4))).length
          (by simp only [List.length_drop]; omega)
          (buf.drop (4 + be32 (buf.take 4))) rfl
        rw [hrec]
        simp

/-- Chunked delivery equals single delivery, for any starting buffer that
is itself a non-extractable residue. -/
theorem feedChunks_eq (cs : List (List ℕ)) (buf : List ℕ)
    (hres : extractAll buf = ([], buf)) :
    feedChunks buf cs = extractAll (buf ++ cs.flatten) := by
  induction cs generalizing buf with
  | nil =>
    simp only [feedChunks, List.flatten_nil, List.append_nil]
    exact hres.symm
  | cons c cs ih =>
    show (let r := extractAll (buf ++ c)
          let r2 := feedChunks r.2 cs
          (r.1 ++ r2.1, r2.2)) = extractAll (buf ++ (c :: cs).flatten)
    simp only [List.flatten_cons]
    have hres2 : extractAll (extractAll (buf ++ c)).2 =
        ([], (extractAll (buf ++ c)).2) :=
      extractAll_stop (extractAll_residue_spec (buf ++ c))
    rw [show buf ++ (c ++ cs.flatten) = (buf ++ c) ++ cs.flatten by simp]
    rw [extractAll_append (buf ++ c) cs.flatten]
    simp only [ih _ hres2]

end IBClient

namespace IBClient

/-! ### Claim theorems for the codec (C3, C8) -/

/-- C3: For any inbound byte stream and any way of splitting it into
arbitrarily-sized consecutive chunks delivered to the framing loop one
at a time, the sequence of decoded field lists (and the residual buffer)
is identical to delivering the whole stream as a single chunk; in
particular a frame split inside its 4-byte length prefix is recovered
once all its bytes have arrived. -/
theorem C3_chunking_invariance (chunks : List (List ℕ)) :
    feedChunks [] chunks = extractAll chunks.flatten := by
  have h := feedChunks_eq chunks [] (extractAll_stop (Or.inl (by simp)))
  simpa using h

/-- C8 counterexample: a buffer holding exactly one complete frame with a
declared body length of zero (4-byte prefix `[0,0,0,0]`, empty body) is
*not* extracted: the loop stops as soon as at most 4 bytes are buffered
(`if len(self._data) <= 4: break`), so it yields no field list and
leaves the complete frame in the buffer, although the buffer holds the
full 4-byte prefix plus the entire declared body. -/
theorem C8_counterexample :
    extractAll [0, 0, 0, 0] = ([], [0, 0, 0, 0]) ∧
      4 + be32 ([0, 0, 0, 0].take 4) ≤ [0, 0, 0, 0].length := by
  exact ⟨rfl, by decide⟩

/-- C8 amended: extraction stops only when at most 4 bytes (not: fewer
than 4 bytes) are buffered, or when the buffered bytes are fewer than
the declared frame end; whenever more than 4 bytes are buffered and the
full declared body is present the frame is extracted, so the residual
buffer always satisfies one of the two stop conditions.  (The single
deviation from the claim: a frame of declared body length zero that ends
the buffer occupies exactly 4 bytes and is not extracted until more
bytes arrive.) -/
theorem C8_amended (buf : List ℕ) :
    (extractAll buf).2.length ≤ 4 ∨
      (extractAll buf).2.length < 4 + be32 ((extractAll buf).2.take 4) :=
  extractAll_residue_spec buf

end IBClient

namespace IBClient

/-! ### Helper lemmas for the encoder round trip -/

theorem data_append : ∀ (s t : String), (s ++ t).data = s.data ++ t.data :=
  fun ⟨_⟩ ⟨_⟩ => rfl

theorem strBytes_append (s t : String) :
    strBytes (s ++ t) = strBytes s ++ strBytes t := by
  simp [strBytes, data_append]

theorem be32_be32enc {n : ℕ} (h : n < 2 ^ 32) : be32 (be32enc n) = n := by
  simp only [be32, be32enc]
  omega

theorem splitSep_sep_cons {α : Type} [DecidableEq α] (sep : α) (tk rest : List α)
    (h : sep ∉ tk) :
    splitSep sep (tk ++ sep :: rest) = tk :: splitSep sep rest := by
  induction tk with
  | nil => simp [splitSep]
  | cons b tk ih =>
    have hb : b ≠ sep := fun hb => h (hb ▸ List.mem_cons_self b tk)
    have htl : sep ∉ tk := fun hm => h (List.mem_cons_of_mem b hm)
    simp only [List.cons_append, splitSep, if_neg hb]
    show (match splitSep sep (tk ++ sep :: rest) with
          | [] => [[b]]
          | f :: fs => (b :: f) :: fs) = (b :: tk) :: splitSep sep rest
    rw [ih htl]

theorem splitSep_ne_nil {α : Type} [DecidableEq α] (sep : α) (l : List α) :
    splitSep sep l ≠ [] := by
  cases l with
  | nil => simp [splitSep]
  | cons b rest =>
    simp only [splitSep]
    by_cases hb : b = sep
    · simp [hb]
    · rw [if_neg hb]
      cases h : splitSep sep rest with
      | nil => simp
      | cons f fs => simp

/-- Splitting a NUL-joined token sequence recovers the tokens plus the
trailing empty piece. -/
theorem splitSep_flatten (tokens : List (List ℕ))
    (h : ∀ tk ∈ tokens, (0 : ℕ) ∉ tk) :
    splitSep 0 ((tokens.map (fun tk => tk ++ [0])).flatten) = tokens ++ [[]] := by
  induction tokens with
  | nil => simp [splitSep]
  | cons tk tokens ih =>
    have h0 : (0 : ℕ) ∉ tk := h tk (List.mem_cons_self tk tokens)
    have htl : ∀ t ∈ tokens, (0 : ℕ) ∉ t := fun t ht => h t (List.mem_cons_of_mem tk ht)
    simp only [List.map_cons, List.flatten_cons, List.append_assoc, List.singleton_append]
    rw [splitSep_sep_cons 0 tk _ h0, ih htl]
    simp

theorem strBytes_encode (fields : List FieldVal) :
    strBytes (encode fields) =
      ((fields.map (fun f => strBytes (render f) ++ [0])).flatten) := by
  induction fields with
  | nil => simp [encode, strBytes]
  | cons f fs ih =>
    simp only [encode, List.map_cons, List.flatten_cons]
    rw [strBytes_append, strBytes_append, ih]
    simp [strBytes]

end IBClient

namespace IBClient

/-! ### Claim theorems for the encoder round trip (C4) -/

/-- C4 counterexample: encoding the one-field list holding a default
instrument descriptor, prefixing the length and decoding the frame from
a fresh buffer yields a single field list of *13* tokens, not one token
per input field: `_encode` joins the 13 contract sub-fields with the
same NUL byte that separates top-level fields, so the decoder cannot
tell them apart.  (The claim promised exactly one decoded token per
input field.) -/
theorem C4_counterexample :
    (List.map List.length
        (extractAll (prefixMsg (strBytes (encode
          [FieldVal.contractVal defaultContract])))).1) = [13] := by
  decide

/-- C4 amended: for every *nonempty* field list in which no rendered
token contains the NUL separator byte (which excludes instrument
descriptors, whose rendering embeds NUL separators, and strings or tag
values containing NUL), encoding, prefixing the 4-byte big-endian length
and decoding the resulting frame from a fresh inbound buffer yields
exactly one field list whose tokens are the rendered fields in order —
one decoded token per input field, with the documented sentinel-to-empty
and boolean-to-`0`/`1` conversions applied by the renderer. -/
theorem C4_amended (fields : List FieldVal)
    (hne : fields ≠ [])
    (hnul : ∀ f ∈ fields, (0 : ℕ) ∉ strBytes (render f))
    (hlen : (strBytes (encode fields)).length < 2 ^ 32) :
    extractAll (prefixMsg (strBytes (encode fields))) =
      ([fields.map (fun f => strBytes (render f))], []) := by
  set body := strBytes (encode fields) with hbody
  have hb1 : 1 ≤ body.length := by
    rcases fields with _ | ⟨f, fs⟩
    · exact absurd rfl hne
    · rw [hbody, strBytes_encode]
      simp
      omega
  have hbuf : prefixMsg body = be32enc body.length ++ body := rfl
  have hlen4 : (be32enc body.length).length = 4 := rfl
  have hlenbuf : (prefixMsg body).length = 4 + body.length := by
    rw [hbuf]
    simp [hlen4]
  have htake4 : (prefixMsg body).take 4 = be32enc body.length := by
    rw [hbuf, show (4 : ℕ) = (be32enc body.length).length from hlen4.symm,
      List.take_left]
  have hbe : be32 ((prefixMsg body).take 4) = body.length := by
    rw [htake4, be32_be32enc hlen]
  have h4 : ¬ (prefixMsg body).length ≤ 4 := by omega
  have hc : ¬ (prefixMsg body).length < 4 + be32 ((prefixMsg body).take 4) := by
    rw [hbe]; omega
  rw [extractAll_step h4 hc]
  rw [hbe]
  have htakeAll : (prefixMsg body).take (4 + body.length) = prefixMsg body := by
    rw [List.take_of_length_le (by omega)]
  have hdropAll : (prefixMsg body).drop (4 + body.length) = [] := by
    rw [List.drop_eq_nil_of_le (by omega)]
  rw [htakeAll, hdropAll]
  have hmsg : (prefixMsg body).drop 4 = body := by
    rw [hbuf, show (4 : ℕ) = (be32enc body.length).length from hlen4.symm,
      List.drop_left]
  rw [hmsg]
  have hsplit : splitSep 0 body = fields.map (fun f => strBytes (render f)) ++ [[]] := by
    rw [hbody, strBytes_encode]
    have := splitSep_flatten (fields.map (fun f => strBytes (render f)))
      (by
        intro tk htk
        rcases List.mem_map.mp htk with ⟨f, hf, rfl⟩
        exact hnul f hf)
    rw [← this]
    congr 1
    rw [List.map_map]
    exact rfl
  rw [hsplit, List.dropLast_concat]
  rw [extractAll_stop (Or.inl (by simp))]

/-- C4 amended, concrete instance: the field list
`[7, True, None, "ES"]` round-trips to the tokens
`["7", "1", "", "ES"]` — one token per field. -/
theorem C4_amended_witness :
    extractAll (prefixMsg (strBytes (encode
        [FieldVal.intVal 7, FieldVal.boolVal true, FieldVal.noneVal,
          FieldVal.strVal "ES"]))) =
      ([[FieldVal.intVal 7, FieldVal.boolVal true, FieldVal.noneVal,
          FieldVal.strVal "ES"].map (fun f => strBytes (render f))], []) :=
  C4_amended _ (List.cons_ne_nil _ _) (by decide) (by decide)

end IBClient

namespace IBClient

/-! ### Rate-limiter lemmas -/

theorem evict_spec (t : ℤ) (l : List ℤ) :
    ∃ d, l = d ++ evict t l ∧ ∀ s ∈ d, RequestsInterval < t - s := by
  induction l with
  | nil => exact ⟨[], rfl, by simp⟩
  | cons s rest ih =>
    by_cases h : RequestsInterval < t - s
    · obtain ⟨d, hd, hm⟩ := ih
      refine ⟨s :: d, ?_, ?_⟩
      · simp [evict, h, ← hd]
      · intro x hx
        rcases List.mem_cons.mp hx with rfl | hx
        · exact h
        · exact hm x hx
    · exact ⟨[], by simp [evict, h], by simp⟩

theorem drain_spec (t : ℤ) : ∀ (ms : List String) (times : List ℤ),
    (drain t ms times).1 = ms.drop (drain t ms times).2.2.length ∧
    (drain t ms times).2.2 = ms.take (drain t ms times).2.2.length ∧
    (drain t ms times).2.1 =
      times ++ List.replicate (drain t ms times).2.2.length t ∧
    ((drain t ms times).2.2.length = 0 ∨
      times.length + (drain t ms times).2.2.length ≤ MaxRequests) := by
  intro ms
  induction ms with
  | nil => intro times; simp [drain]
  | cons m ms ih =>
    intro times
    by_cases h : times.length < MaxRequests
    · have hstep : drain t (m :: ms) times =
          ((drain t ms (times ++ [t])).1, (drain t ms (times ++ [t])).2.1,
            m :: (drain t ms (times ++ [t])).2.2) := by
        simp [drain, h]
      obtain ⟨ih1, ih2, ih3, ih4⟩ := ih (times ++ [t])
      rw [hstep]
      refine ⟨?_, ?_, ?_, ?_⟩
      · simpa using ih1
      · simp only [List.length_cons, List.take_succ_cons]
        rw [← ih2]
      · simp only [List.length_cons]
        rw [ih3]
        simp [List.replicate_succ]
      · rcases ih4 with h0 | hle
        · simp only [List.length_cons, h0]
          omega
        · simp only [List.length_append, List.length_singleton] at hle
          simp only [List.length_cons]
          omega
    · have hstep : drain t (m :: ms) times = (m :: ms, times, []) := by
        simp [drain, h]
      rw [hstep]
      simp

theorem drain_saturated (t : ℤ) : ∀ (ms : List String) (times : List ℤ),
    (drain t ms times).1 ≠ [] → MaxRequests ≤ (drain t ms times).2.1.length := by
  intro ms
  induction ms with
  | nil => intro times h; simp [drain] at h
  | cons m ms ih =>
    intro times h
    by_cases hlt : times.length < MaxRequests
    · have hstep : drain t (m :: ms) times =
          ((drain t ms (times ++ [t])).1, (drain t ms (times ++ [t])).2.1,
            m :: (drain t ms (times ++ [t])).2.2) := by
        simp [drain, hlt]
      rw [hstep] at h ⊢
      exact ih (times ++ [t]) h
    · have hstep : drain t (m :: ms) times = (m :: ms, times, []) := by
        simp [drain, hlt]
      rw [hstep]
      show MaxRequests ≤ times.length
      omega

theorem sendMsg_parts (st : SendState) (e : Ev) :
    (sendMsg st e).1.timeQ =
      (drain e.t (msgsAfterEnqueue st.msgQ e.msg) (evict e.t st.timeQ)).2.1 ∧
    (sendMsg st e).2 =
      (drain e.t (msgsAfterEnqueue st.msgQ e.msg) (evict e.t st.timeQ)).2.2 ∧
    (sendMsg st e).1.msgQ =
      (drain e.t (msgsAfterEnqueue st.msgQ e.msg) (evict e.t st.timeQ)).1 := by
  have hq : (match e.msg with
      | none => st.msgQ
      | some m => if m = "" then st.msgQ else st.msgQ ++ [m]) =
      msgsAfterEnqueue st.msgQ e.msg := by
    cases e.msg <;> rfl
  unfold sendMsg
  rw [hq]
  by_cases h : (drain e.t (msgsAfterEnqueue st.msgQ e.msg) (evict e.t st.timeQ)).1.isEmpty <;>
    simp [h]

theorem countP_replicate_of_neg {p : ℤ → Bool} {a : ℤ} (h : p a = false) (k : ℕ) :
    (List.replicate k a).countP p = 0 := by
  induction k with
  | zero => simp
  | succ k ih => simp [List.replicate_succ, List.countP_cons, h, ih]

theorem sendMsg_inv {log : List ℤ} {st : SendState} {tl u : ℤ} (e : Ev)
    (hinv : SendInv log st tl u) (hmono : tl ≤ e.t) :
    SendInv (log ++ List.replicate (sendMsg st e).2.length e.t)
      (sendMsg st e).1 e.t u := by
  obtain ⟨⟨d, hlog, hd⟩, hlen, hcount⟩ := hinv
  obtain ⟨d2, hd2, hd2m⟩ := evict_spec e.t st.timeQ
  obtain ⟨hp1, hp2, hp3⟩ := sendMsg_parts st e
  set msgs0 := msgsAfterEnqueue st.msgQ e.msg with hmsgs0
  set times0 := evict e.t st.timeQ with htimes0
  obtain ⟨_, _, hdr3, hdr4⟩ := drain_spec e.t msgs0 times0
  set k := (drain e.t msgs0 times0).2.2.length with hk
  have hout : (sendMsg st e).2.length = k := by rw [hp2]
  have htimes1 : (sendMsg st e).1.timeQ = times0 ++ List.replicate k e.t := by
    rw [hp1, hdr3]
  have htimes0len : times0.length ≤ st.timeQ.length := by
    conv_rhs => rw [hd2]
    simp
  have hlen1 : (sendMsg st e).1.timeQ.length ≤ MaxRequests := by
    rw [htimes1]
    simp only [List.length_append, List.length_replicate]
    rcases hdr4 with h0 | hle
    · omega
    · omega
  have hnewlog : log ++ List.replicate (sendMsg st e).2.length e.t =
      (d ++ d2) ++ (sendMsg st e).1.timeQ := by
    rw [hout, htimes1, hlog, hd2]
    simp
  refine ⟨⟨d ++ d2, hnewlog, ?_⟩, hlen1, ?_⟩
  · intro s hs
    rcases List.mem_append.mp hs with hs | hs
    · have := hd s hs
      omega
    · exact hd2m s hs
  · by_cases hw : inWindow u e.t
    · have hu1 : u ≤ e.t ∧ e.t ≤ u + RequestsInterval := by
        simpa [inWindow] using hw
      have hdwin : ∀ s ∈ d ++ d2, inWindow u s = false := by
        intro s hs
        have hold : RequestsInterval < e.t - s := by
          rcases List.mem_append.mp hs with hs | hs
          · have := hd s hs
            omega
          · exact hd2m s hs
        simp only [inWindow, decide_eq_false_iff_not]
        intro ⟨h1, _⟩
        omega
      rw [hnewlog, List.countP_append]
      have hz : (d ++ d2).countP (inWindow u) = 0 :=
        List.countP_eq_zero.mpr (by
          intro s hs
          simp [hdwin s hs])
      rw [hz]
      calc 0 + ((sendMsg st e).1.timeQ.countP (inWindow u)) ≤
            (sendMsg st e).1.timeQ.length := by
              simpa using List.countP_le_length (inWindow u)
        _ ≤ MaxRequests := hlen1
    · have hw' : inWindow u e.t = false := by
        simpa using hw
      rw [List.countP_append, hout, countP_replicate_of_neg hw']
      omega

theorem map_fst_pairs (t : ℤ) (l : List String) :
    ((l.map (fun m => (t, m))).map Prod.fst) = List.replicate l.length t := by
  induction l with
  | nil => rfl
  | cons m l ih => simp [List.replicate_succ, ih]

theorem map_snd_pairs (t : ℤ) (l : List String) :
    ((l.map (fun m => (t, m))).map Prod.snd) = l := by
  induction l with
  | nil => rfl
  | cons m l ih => simp [ih]

theorem runTrace_window_bound : ∀ (evs : List Ev) (st : SendState)
    (log : List ℤ) (tl u : ℤ),
    SendInv log st tl u → timesMonoB tl evs = true →
    (log ++ ((runTrace st evs).2.map Prod.fst)).countP (inWindow u) ≤
      MaxRequests := by
  intro evs
  induction evs with
  | nil =>
    intro st log tl u hinv _
    simpa [runTrace] using hinv.2.2
  | cons e rest ih =>
    intro st log tl u hinv hmono
    simp only [timesMonoB, Bool.and_eq_true, decide_eq_true_eq] at hmono
    have hstep := sendMsg_inv e hinv hmono.1
    have hrec := ih (sendMsg st e).1 (log ++ List.replicate (sendMsg st e).2.length e.t)
      e.t u hstep hmono.2
    have heq : log ++ ((runTrace st (e :: rest)).2.map Prod.fst) =
        (log ++ List.replicate (sendMsg st e).2.length e.t) ++
          ((runTrace (sendMsg st e).1 rest).2.map Prod.fst) := by
      show log ++ (((sendMsg st e).2.map (fun m => (e.t, m)) ++
          (runTrace (sendMsg st e).1 rest).2).map Prod.fst) = _
      rw [List.map_append, map_fst_pairs]
      simp
    rw [heq]
    exact hrec

theorem runTrace_append (a b : List Ev) : ∀ st, runTrace st (a ++ b) =
    ((runTrace (runTrace st a).1 b).1,
      (runTrace st a).2 ++ (runTrace (runTrace st a).1 b).2) := by
  induction a with
  | nil => intro st; simp [runTrace]
  | cons e a ih =>
    intro st
    show runTrace st (e :: (a ++ b)) = _
    simp only [runTrace, ih]
    simp [runTrace, List.append_assoc]

theorem evict_zero_replicate (t : ℤ) (h : ¬ RequestsInterval < t) (j : ℕ) :
    evict t (List.replicate j 0) = List.replicate j 0 := by
  cases j with
  | zero => rfl
  | succ j =>
    simp only [List.replicate_succ, evict]
    rw [if_neg (by omega)]

theorem drain_full (t : ℤ) (ms : List String) (times : List ℤ)
    (h : ¬ times.length < MaxRequests) : drain t ms times = (ms, times, []) := by
  cases ms with
  | nil => simp [drain]
  | cons m ms => simp [drain, h]

/-- A submission at time 0 with room in the window: transmitted at once,
window extended, not throttling. -/
theorem sendMsg_submit_step (j : ℕ) (hj : j < MaxRequests) (thr : Bool)
    (p : List ℤ) (m : String) (hm : m ≠ "") :
    sendMsg ⟨[], List.replicate j 0, thr, p⟩ ⟨0, some m, false⟩ =
      (⟨[], List.replicate (j + 1) 0, false, p⟩, [m]) := by
  have he : evict 0 (List.replicate j (0 : ℤ)) = List.replicate j 0 :=
    evict_zero_replicate 0 (by decide) j
  have hd : drain 0 [m] (List.replicate j (0 : ℤ)) =
      ([], List.replicate (j + 1) 0, [m]) := by
    simp only [drain]
    rw [if_pos (by simpa using hj)]
    simp [drain, List.replicate_succ']
  show sendMsg _ _ = _
  unfold sendMsg
  simp only [he, if_neg hm, List.nil_append, hd]
  rfl

/-- A run of `k` submissions at time 0 while the window has room: all
transmitted immediately, window filled to `j + k` entries. -/
theorem runTrace_replicate_submit (m : String) (hm : m ≠ "") :
    ∀ (k j : ℕ), j + k ≤ MaxRequests →
    runTrace ⟨[], List.replicate j 0, false, []⟩
        (List.replicate k ⟨0, some m, false⟩) =
      (⟨[], List.replicate (j + k) 0, false, []⟩,
        List.replicate k ((0 : ℤ), m)) := by
  intro k
  induction k with
  | zero => intro j h; simp [runTrace]
  | succ k ih =>
    intro j h
    rw [List.replicate_succ]
    show runTrace _ (Ev.mk 0 (some m) false :: List.replicate k ⟨0, some m, false⟩) = _
    simp only [runTrace]
    rw [sendMsg_submit_step j (by omega) false [] m hm]
    rw [ih (j + 1) (by omega)]
    have hjk : j + 1 + k = j + (k + 1) := by omega
    rw [hjk]
    simp [List.replicate_succ]

/-- A submission while the window is saturated (it holds `MaxRequests`
entries, none old enough to evict): the frame is queued, throttling is
on, and one more flush is scheduled at `times[0] + RequestsInterval`. -/
theorem sendMsg_saturated (q : List String) (p : List ℤ) (thr : Bool)
    (t : ℤ) (m : String) (ht : ¬ RequestsInterval < t) (hm : m ≠ "") :
    sendMsg ⟨q, List.replicate MaxRequests 0, thr, p⟩ ⟨t, some m, false⟩ =
      (⟨q ++ [m], List.replicate MaxRequests 0, true, p ++ [RequestsInterval]⟩, []) := by
  have he : evict t (List.replicate MaxRequests (0 : ℤ)) =
      List.replicate MaxRequests 0 :=
    evict_zero_replicate t ht MaxRequests
  have hd : drain t (q ++ [m]) (List.replicate MaxRequests (0 : ℤ)) =
      (q ++ [m], List.replicate MaxRequests 0, []) :=
    drain_full t (q ++ [m]) _ (by simp)
  have hne : (q ++ [m]).isEmpty = false := by
    cases q <;> rfl
  have hhead : (List.replicate MaxRequests (0 : ℤ)).headD 0 = 0 := by
    rfl
  show sendMsg _ _ = _
  unfold sendMsg
  simp only [he, if_neg hm, hd, hne, Bool.false_eq_true, if_false, hhead, zero_add]

theorem runTrace_fifo_inv : ∀ (evs : List Ev) (st : SendState),
    ((runTrace st evs).2.map Prod.snd) ++ (runTrace st evs).1.msgQ =
      st.msgQ ++ submittedOf evs := by
  intro evs
  induction evs with
  | nil => intro st; simp [runTrace, submittedOf]
  | cons e rest ih =>
    intro st
    obtain ⟨_, hp2, hp3⟩ := sendMsg_parts st e
    obtain ⟨hd1, hd2, _, _⟩ :=
      drain_spec e.t (msgsAfterEnqueue st.msgQ e.msg) (evict e.t st.timeQ)
    set n := (drain e.t (msgsAfterEnqueue st.msgQ e.msg)
      (evict e.t st.timeQ)).2.2.length with hn
    have hsum : (sendMsg st e).2 ++ (sendMsg st e).1.msgQ =
        msgsAfterEnqueue st.msgQ e.msg := by
      rw [hp2, hp3, hd1, hd2]
      exact List.take_append_drop n (msgsAfterEnqueue st.msgQ e.msg)
    have henq : msgsAfterEnqueue st.msgQ e.msg =
        st.msgQ ++ (match e.msg with
          | none => []
          | some m => if m = "" then [] else [m]) := by
      rcases e.msg with _ | m
      · simp [msgsAfterEnqueue]
      · by_cases hm : m = "" <;> simp [msgsAfterEnqueue, hm]
    show (((sendMsg st e).2.map (fun m => (e.t, m)) ++
        (runTrace (sendMsg st e).1 rest).2).map Prod.snd) ++
        (runTrace (sendMsg st e).1 rest).1.msgQ = st.msgQ ++ submittedOf (e :: rest)
    rw [List.map_append, map_snd_pairs, List.append_assoc, ih (sendMsg st e).1]
    rw [← List.append_assoc, hsum, henq]
    simp [submittedOf]

end IBClient

namespace IBClient

/-! ### Claim theorems for the rate limiter (C2, C10) -/

/-- C2: For every sequence of `sendMsg` invocations at nondecreasing
times (the event loop's clock is monotone), (a) in every closed sliding
window of length `RequestsInterval` the number of frames actually handed
to the transport is at most `MaxRequests`, and (b) the transmitted
messages are exactly an initial prefix of the submitted messages in
submission order — no queued frame is ever reordered past another.
(Each message `m` is handed to the transport as the single frame
`prefixMsg (strBytes m)`, a per-message function, so counting and
ordering coincide with those of the messages.) -/
theorem C2_rate_limit_fifo (evs : List Ev) (hmono : eventsMonoB evs = true) :
    (∀ u : ℤ, ((runTrace initSend evs).2.map Prod.fst).countP (inWindow u) ≤
      MaxRequests) ∧
    (runTrace initSend evs).2.map Prod.snd =
      (submittedOf evs).take ((runTrace initSend evs).2.map Prod.snd).length := by
  constructor
  · intro u
    cases evs with
    | nil => simp [runTrace, MaxRequests]
    | cons e rest =>
      have hinv : SendInv [] initSend e.t u :=
        ⟨⟨[], rfl, by simp⟩, by simp [initSend, MaxRequests], by simp⟩
      have hm : timesMonoB e.t (e :: rest) = true := by
        simp only [timesMonoB, Bool.and_eq_true, decide_eq_true_eq]
        exact ⟨le_refl _, hmono⟩
      have h := runTrace_window_bound (e :: rest) initSend [] e.t u hinv hm
      simpa using h
  · have h := runTrace_fifo_inv evs initSend
    rw [show initSend.msgQ = [] from rfl, List.nil_append] at h
    conv_rhs => rw [← h]
    rw [List.take_left]

/-- C2 witness: a concrete monotone trace (submit "a" at t=0, a fired
flush at t=1, submit "b" at t=2) satisfies the window bound at `u = 0`
and the FIFO prefix property. -/
theorem C2_rate_limit_fifo_witness :
    eventsMonoB [⟨0, some "a", false⟩, ⟨1, none, true⟩, ⟨2, some "b", false⟩] = true ∧
    ((runTrace initSend [⟨0, some "a", false⟩, ⟨1, none, true⟩,
        ⟨2, some "b", false⟩]).2.map Prod.fst).countP (inWindow 0) ≤ MaxRequests ∧
    (runTrace initSend [⟨0, some "a", false⟩, ⟨1, none, true⟩,
        ⟨2, some "b", false⟩]).2.map Prod.snd =
      (submittedOf [⟨0, some "a", false⟩, ⟨1, none, true⟩, ⟨2, some "b", false⟩]).take
        ((runTrace initSend [⟨0, some "a", false⟩, ⟨1, none, true⟩,
          ⟨2, some "b", false⟩]).2.map Prod.snd).length :=
  ⟨by decide,
    (C2_rate_limit_fifo _ (by decide)).1 0,
    (C2_rate_limit_fifo _ (by decide)).2⟩

set_option maxRecDepth 4000 in
/-- C10 counterexample: from the reset state, 251 submissions at t=0
fill the window (250 transmitted, one queued) and schedule a flush for
t=5; a 252nd invocation at t=0, made while that flush is still pending,
schedules a *second* flush for t=5 — `loop.call_at` is called
unconditionally on every invocation that leaves the queue non-empty,
with no handle kept, no cancellation and no deduplication.  Two flush
callbacks are pending simultaneously, refuting "at most one flush is
scheduled at every point in time". -/
theorem C10_counterexample :
    (runTrace initSend (List.replicate 251 ⟨0, some "a", false⟩ ++
      [⟨0, some "b", false⟩])).1.pending = [5, 5] := by
  have hsplit : List.replicate 251 (Ev.mk 0 (some "a") false) =
      List.replicate MaxRequests ⟨0, some "a", false⟩ ++ [⟨0, some "a", false⟩] := by
    rw [show (251 : ℕ) = MaxRequests + 1 from rfl, List.replicate_succ']
  rw [hsplit, List.append_assoc, runTrace_append]
  have h1 : runTrace initSend (List.replicate MaxRequests ⟨0, some "a", false⟩) =
      (⟨[], List.replicate (0 + MaxRequests) 0, false, []⟩,
        List.replicate MaxRequests ((0 : ℤ), "a")) := by
    have := runTrace_replicate_submit "a" (by decide) MaxRequests 0 (by omega)
    exact this
  rw [h1]
  show (runTrace ⟨[], List.replicate (0 + MaxRequests) 0, false, []⟩
    ([⟨0, some "a", false⟩] ++ [⟨0, some "b", false⟩])).1.pending = [5, 5]
  rw [show (0 + MaxRequests) = MaxRequests from by omega]
  show (runTrace ⟨[], List.replicate MaxRequests 0, false, []⟩
    (⟨0, some "a", false⟩ :: [⟨0, some "b", false⟩])).1.pending = [5, 5]
  simp only [runTrace]
  rw [sendMsg_saturated [] [] false 0 "a" (by decide) (by decide)]
  show (sendMsg ⟨["a"], List.replicate MaxRequests 0, true, [RequestsInterval]⟩
    ⟨0, some "b", false⟩).1.pending = [5, 5]
  rw [sendMsg_saturated ["a"] [RequestsInterval] true 0 "b" (by decide) (by decide)]
  rfl

/-- C10 amended: the admission logic schedules exactly one flush
callback on every invocation that leaves the queue non-empty (at the
time the oldest window entry expires), and none otherwise; nothing
cancels or deduplicates pending callbacks, so re-entry while a flush is
pending schedules an additional one.  Moreover a flush is only ever
scheduled when the send window is saturated: if the invocation leaves
the queue non-empty (given the window invariant `|timeQ| ≤ MaxRequests`)
the new window holds exactly `MaxRequests` entries. -/
theorem C10_amended (st : SendState) (e : Ev) :
    ((sendMsg st e).1.pending =
      (if e.fired then st.pending.drop 1 else st.pending) ++
        (if (sendMsg st e).1.msgQ.isEmpty then []
          else [(sendMsg st e).1.timeQ.headD 0 + RequestsInterval])) ∧
    (st.timeQ.length ≤ MaxRequests → (sendMsg st e).1.msgQ ≠ [] →
      (sendMsg st e).1.timeQ.length = MaxRequests) := by
  obtain ⟨hp1, _, hp3⟩ := sendMsg_parts st e
  constructor
  · have hq : (match e.msg with
        | none => st.msgQ
        | some m => if m = "" then st.msgQ else st.msgQ ++ [m]) =
        msgsAfterEnqueue st.msgQ e.msg := by
      cases e.msg <;> rfl
    show (sendMsg st e).1.pending = _
    unfold sendMsg
    rw [hq]
    by_cases h :
        (drain e.t (msgsAfterEnqueue st.msgQ e.msg) (evict e.t st.timeQ)).1.isEmpty
    · simp [h]
    · simp [h]
  · intro hle hne
    rw [hp3] at hne
    have hsat := drain_saturated e.t (msgsAfterEnqueue st.msgQ e.msg)
      (evict e.t st.timeQ) hne
    obtain ⟨_, _, hdr3, hdr4⟩ :=
      drain_spec e.t (msgsAfterEnqueue st.msgQ e.msg) (evict e.t st.timeQ)
    obtain ⟨d2, hd2, _⟩ := evict_spec e.t st.timeQ
    have h0len : (evict e.t st.timeQ).length ≤ st.timeQ.length := by
      conv_rhs => rw [hd2]
      simp
    rw [hp1]
    rw [hdr3] at hsat ⊢
    simp only [List.length_append, List.length_replicate] at hsat ⊢
    omega

/-- C10 amended, concrete instance: with a saturated window (250 entries
at t=0), one queued frame, and a flush already pending for t=5, a new
submission at t=1 leaves the queue non-empty, appends a second scheduled
flush for t=5, and keeps the window at exactly 250 entries. -/
theorem C10_amended_witness :
    ((sendMsg ⟨["x"], List.replicate MaxRequests 0, true, [5]⟩
        ⟨1, some "y", false⟩).1.pending =
      [5] ++ [(sendMsg ⟨["x"], List.replicate MaxRequests 0, true, [5]⟩
        ⟨1, some "y", false⟩).1.timeQ.headD 0 + RequestsInterval]) ∧
    (sendMsg ⟨["x"], List.replicate MaxRequests 0, true, [5]⟩
      ⟨1, some "y", false⟩).1.timeQ.length = MaxRequests := by
  have hstep := sendMsg_saturated ["x"] [5] true 1 "y" (by decide) (by decide)
  have h := C10_amended ⟨["x"], List.replicate MaxRequests 0, true, [5]⟩
    ⟨1, some "y", false⟩
  refine ⟨?_, h.2 (by simp) (by rw [hstep]; simp)⟩
  rw [h.1, hstep]
  simp

end IBClient

namespace IBClient

/-! ### Session lemmas -/

theorem processGo_congr : ∀ f1 f2 (st : ClientState) buf, buf.length ≤ f1 →
    buf.length ≤ f2 → processGo f1 st buf = processGo f2 st buf := by
  intro f1
  induction f1 with
  | zero =>
    intro f2 st buf h1 _
    have : buf = [] := List.length_eq_zero.mp (Nat.le_zero.mp h1)
    subst this
    cases f2 with
    | zero => rfl
    | succ f2 => simp [processGo]
  | succ f1 ih =>
    intro f2 st buf h1 h2
    cases f2 with
    | zero =>
      have : buf = [] := List.length_eq_zero.mp (Nat.le_zero.mp h2)
      subst this
      simp [processGo]
    | succ f2 =>
      show processGo (f1 + 1) st buf = processGo (f2 + 1) st buf
      by_cases h4 : buf.length ≤ 4
      · simp [processGo, h4]
      · by_cases hc : buf.length < 4 + be32 (buf.take 4)
        · simp [processGo, h4, hc]
        · have hrest : (buf.drop (4 + be32 (buf.take 4))).length ≤ f1 := by
            simp only [List.length_drop]
            omega
          have hrest2 : (buf.drop (4 + be32 (buf.take 4))).length ≤ f2 := by
            simp only [List.length_drop]
            omega
          simp only [processGo, if_neg h4, if_neg hc]
          rw [ih f2 _ (buf.drop (4 + be32 (buf.take 4))) hrest hrest2]

theorem processAll_stop {st : ClientState} {buf : List ℕ}
    (h : buf.length ≤ 4 ∨ buf.length < 4 + be32 (buf.take 4)) :
    processAll st buf = (st, buf, []) := by
  unfold processAll
  cases hn : buf.length with
  | zero => rfl
  | succ n =>
    show processGo (n + 1) st buf = (st, buf, [])
    simp only [processGo]
    rcases h with h | h
    · rw [if_pos h]
    · by_cases h4 : buf.length ≤ 4
      · rw [if_pos h4]
      · rw [if_neg h4, if_pos h]

theorem processAll_step {st : ClientState} {buf : List ℕ}
    (h4 : ¬ buf.length ≤ 4)
    (hc : ¬ buf.length < 4 + be32 (buf.take 4)) :
    processAll st buf =
      (let fields := (splitSep 0 ((buf.take (4 + be32 (buf.take 4))).drop 4)).dropLast
       let h := handleFrame { st with numMsgRecv := st.numMsgRecv + 1 } fields
       if h.2.2 then (h.1, buf.drop (4 + be32 (buf.take 4)), h.2.1)
       else
         let r := processAll h.1 (buf.drop (4 + be32 (buf.take 4)))
         (r.1, r.2.1, h.2.1 ++ r.2.2)) := by
  unfold processAll
  cases hn : buf.length with
  | zero => omega
  | succ n =>
    have hrest : (buf.drop (4 + be32 (buf.take 4))).length ≤ n := by
      simp only [List.length_drop]
      omega
    show processGo (n + 1) st buf = _
    simp only [processGo]
    rw [if_neg h4, if_neg hc]
    rw [processGo_congr n (buf.drop (4 + be32 (buf.take 4))).length _
      (buf.drop (4 + be32 (buf.take 4))) hrest le_rfl]

/-- Everything `_decode` can do to the state on success: leave it
unchanged, or (kind 9) seed the counter and possibly set ready, or
(kind 15) store the accounts and possibly set ready. -/
theorem decodeFields_shape (st : ClientState) (fields : List (List ℕ))
    (r : ClientState × List Action)
    (hok : decodeFields st fields = Except.ok r) :
    r.1 = st ∨
    (∃ v, msgIdOfFrame fields = some 9 ∧
      ((accountsTruthy st.accounts = true ∧
        r.1 = { st with reqIdSeq := v, readyEvent := true }) ∨
       (¬ accountsTruthy st.accounts = true ∧
        r.1 = { st with reqIdSeq := v }))) ∨
    (∃ a, msgIdOfFrame fields = some 15 ∧
      ((st.reqIdSeq ≠ 0 ∧
        r.1 = { st with accounts := some a, readyEvent := true }) ∨
       (¬ st.reqIdSeq ≠ 0 ∧
        r.1 = { st with accounts := some a }))) := by
  unfold decodeFields at hok
  repeat' split at hok
  all_goals
    first
      | exact Except.noConfusion hok
      | (simp only [Except.ok.injEq] at hok
         subst hok
         exact Or.inl rfl)
      | (simp only [Except.ok.injEq] at hok
         subst hok
         exact Or.inr (Or.inl ⟨_, by simp_all [msgIdOfFrame],
           Or.inl ⟨by assumption, rfl⟩⟩))
      | (simp only [Except.ok.injEq] at hok
         subst hok
         exact Or.inr (Or.inl ⟨_, by simp_all [msgIdOfFrame],
           Or.inr ⟨by assumption, rfl⟩⟩))
      | (simp only [Except.ok.injEq] at hok
         subst hok
         exact Or.inr (Or.inr ⟨_, by simp_all [msgIdOfFrame],
           Or.inl ⟨by assumption, rfl⟩⟩))
      | (simp only [Except.ok.injEq] at hok
         subst hok
         exact Or.inr (Or.inr ⟨_, by simp_all [msgIdOfFrame],
           Or.inr ⟨by assumption, rfl⟩⟩))

/-- `_decode` on a well-formed next-valid-id frame. -/
theorem decodeFields_msg9_eq (st : ClientState) (i9 verB idB : List ℕ) (n : ℕ)
    (h9 : parseIntBytes i9 = some 9) (hid : parseIntBytes idB = some n) :
    decodeFields st [i9, verB, idB] =
      Except.ok ((if accountsTruthy st.accounts then
          { st with reqIdSeq := n, readyEvent := true }
        else { st with reqIdSeq := n }),
        [Action.interpretA [i9, verB, idB]]) := by
  simp [decodeFields, h9, hid]

/-- `_decode` on a well-formed managed-accounts frame. -/
theorem decodeFields_msg15_eq (st : ClientState) (i15 verB acctB : List ℕ)
    (h15 : parseIntBytes i15 = some 15) :
    decodeFields st [i15, verB, acctB] =
      Except.ok ((if st.reqIdSeq ≠ 0 then
          { st with accounts := some (splitSep ',' (bytesToChars acctB)),
                    readyEvent := true }
        else
          { st with accounts := some (splitSep ',' (bytesToChars acctB)) }),
        [Action.interpretA [i15, verB, acctB]]) := by
  simp [decodeFields, h15]

theorem accountsTruthy_split (l : List Char) (sep : Char) :
    accountsTruthy (some (splitSep sep l)) = true := by
  simp only [accountsTruthy, Bool.not_eq_true']
  cases h : splitSep sep l with
  | nil => exact absurd h (splitSep_ne_nil sep l)
  | cons a as => rfl

theorem handleFrame_decode (st : ClientState) (fields : List (List ℕ))
    (hhs : handshakeCondB st fields = false) :
    handleFrame st fields =
      (match decodeFields st fields with
        | Except.ok r => (r.1, r.2, false)
        | Except.error _ => (st, [Action.decodeFailedA], false)) := by
  simp [handleFrame, hhs]

/-- A frame that is not a next-valid-id frame never changes the
request-id counter, and no frame changes a non-falsy server version. -/
theorem handleFrame_preserve (st : ClientState) (fields : List (List ℕ)) :
    ((msgIdOfFrame fields ≠ some 9 →
      (handleFrame st fields).1.reqIdSeq = st.reqIdSeq) ∧
     (svFalsyB st.serverVersion = false →
      (handleFrame st fields).1.serverVersion = st.serverVersion)) := by
  unfold handleFrame
  by_cases hhs : handshakeCondB st fields
  · rw [if_pos hhs]
    have hsv : svFalsyB st.serverVersion = true := by
      have := hhs
      simp only [handshakeCondB, Bool.and_eq_true] at this
      exact this.1
    constructor
    · intro _
      split
      · split
        · rfl
        · rfl
      · rfl
    · intro hfalse
      rw [hsv] at hfalse
      exact absurd hfalse (by simp)
  · rw [if_neg hhs]
    constructor
    · intro h9
      split
      · next r hok =>
        rcases decodeFields_shape st fields r hok with h | ⟨v, hm, _⟩ |
          ⟨a, _, ⟨_, hr⟩ | ⟨_, hr⟩⟩
        · rw [h]
        · exact absurd hm h9
        · rw [hr]
        · rw [hr]
      · rfl
    · intro _
      split
      · next r hok =>
        rcases decodeFields_shape st fields r hok with h | ⟨v, _, ⟨_, hr⟩ | ⟨_, hr⟩⟩ |
          ⟨a, _, ⟨_, hr⟩ | ⟨_, hr⟩⟩
        · rw [h]
        · rw [hr]
        · rw [hr]
        · rw [hr]
        · rw [hr]
      · rfl

theorem runFrames_append (a b : List (List (List ℕ))) (st : ClientState)
    (hnab : (runFrames st a).2.2 = false) :
    runFrames st (a ++ b) =
      ((runFrames (runFrames st a).1 b).1,
        (runFrames st a).2.1 ++ (runFrames (runFrames st a).1 b).2.1,
        (runFrames (runFrames st a).1 b).2.2) := by
  induction a generalizing st with
  | nil => simp [runFrames]
  | cons f a ih =>
    by_cases hab : (handleFrame st f).2.2
    · exfalso
      simp only [runFrames, if_pos hab] at hnab
      exact absurd hnab (by simp)
    · have hnab' : (runFrames (handleFrame st f).1 a).2.2 = false := by
        simp only [runFrames, if_neg hab] at hnab
        exact hnab
      show runFrames st (f :: (a ++ b)) = _
      simp only [runFrames, if_neg hab, ih (handleFrame st f).1 hnab']
      simp [List.append_assoc]

/-- Along a session-event trace containing no next-valid-id frame, the
counter never decreases, and the issued ids are strictly increasing and
confined between the starting and final counter values. -/
theorem runSession_ids_mono : ∀ (evs : List SEv) (st : ClientState),
    (∀ e ∈ evs, isMsg9Ev e = false) →
    List.Pairwise (· < ·) (runSession st evs).2.1 ∧
    st.reqIdSeq ≤ (runSession st evs).1.reqIdSeq ∧
    (∀ i ∈ (runSession st evs).2.1,
      st.reqIdSeq ≤ i ∧ i < (runSession st evs).1.reqIdSeq) := by
  intro evs
  induction evs with
  | nil =>
    intro st _
    exact ⟨List.Pairwise.nil, le_refl _, by simp [runSession]⟩
  | cons e rest ih =>
    intro st hall
    have htl : ∀ x ∈ rest, isMsg9Ev x = false :=
      fun x hx => hall x (List.mem_cons_of_mem e hx)
    cases e with
    | getReq =>
      by_cases hry : st.readyEvent
      · have hok : getReqId st = Except.ok (st.reqIdSeq,
            { st with reqIdSeq := st.reqIdSeq + 1 }) := by
          simp [getReqId, hry]
        obtain ⟨p, m, b⟩ := ih { st with reqIdSeq := st.reqIdSeq + 1 } htl
        show List.Pairwise (· < ·) (runSession st (SEv.getReq :: rest)).2.1 ∧ _
        simp only [runSession, hok]
        refine ⟨List.Pairwise.cons ?_ p, ?_, ?_⟩
        · intro i hi
          have := (b i hi).1
          simp only at this
          omega
        · have : st.reqIdSeq ≤ st.reqIdSeq + 1 := by omega
          calc st.reqIdSeq ≤ st.reqIdSeq + 1 := this
            _ ≤ _ := by simpa using m
        · intro i hi
          rcases List.mem_cons.mp hi with rfl | hi
          · refine ⟨le_refl _, ?_⟩
            have hm2 : st.reqIdSeq + 1 ≤
                (runSession { st with reqIdSeq := st.reqIdSeq + 1 } rest).1.reqIdSeq := by
              simpa using m
            omega
          · have := b i hi
            simp only at this
            exact ⟨by omega, this.2⟩
      · have herr : getReqId st = Except.error "Not connected" := by
          simp [getReqId, hry]
        show List.Pairwise (· < ·) (runSession st (SEv.getReq :: rest)).2.1 ∧ _
        simp only [runSession, herr]
        exact ih st htl
    | frame fs =>
      have hf9 : msgIdOfFrame fs ≠ some 9 := by
        have := hall (SEv.frame fs) (List.mem_cons_self _ _)
        simp only [isMsg9Ev] at this
        simpa using this
      have hpre : (handleFrame st fs).1.reqIdSeq = st.reqIdSeq :=
        (handleFrame_preserve st fs).1 hf9
      by_cases hab : (handleFrame st fs).2.2
      · show List.Pairwise (· < ·) (runSession st (SEv.frame fs :: rest)).2.1 ∧ _
        simp only [runSession, if_pos hab]
        exact ⟨List.Pairwise.nil, by omega, by simp⟩
      · obtain ⟨p, m, b⟩ := ih (handleFrame st fs).1 htl
        show List.Pairwise (· < ·) (runSession st (SEv.frame fs :: rest)).2.1 ∧ _
        simp only [runSession, if_neg hab]
        refine ⟨p, by omega, ?_⟩
        intro i hi
        have := b i hi
        exact ⟨by omega, this.2⟩

end IBClient

namespace IBClient

/-! ### Claim theorems for the session accessors (C5) -/

/-- C5 counterexample: on a session that is not ready, calling
`isReady()` does *not* reject with a "not connected" error — the method
has no assertion and simply returns the value `False`.  The claim listed
`isReady` among the accessors that reject when the state is not
`READY`. -/
theorem C5_counterexample :
    resetState.readyEvent = false ∧ callIsReady resetState = Except.ok false :=
  ⟨rfl, rfl⟩

/-- C5 amended: while the session is not ready, `getReqId`,
`getAccounts` and `connectionStats` each reject the call with the
explicit `'Not connected'` assertion error, never returning data;
`isReady` itself is the readiness *predicate* — it returns `False`
rather than raising. -/
theorem C5_amended (st : ClientState) (now : ℤ) (bs ms : ℕ)
    (h : st.readyEvent = false) :
    getReqId st = Except.error "Not connected" ∧
    getAccounts st = Except.error "Not connected" ∧
    connectionStats st now bs ms = Except.error "Not connected" ∧
    isReady st = false := by
  simp [getReqId, getAccounts, connectionStats, isReady, h]

/-- C5 amended, concrete instance at the reset state. -/
theorem C5_amended_witness :
    getReqId resetState = Except.error "Not connected" ∧
    getAccounts resetState = Except.error "Not connected" ∧
    connectionStats resetState 10 3 2 = Except.error "Not connected" ∧
    isReady resetState = false :=
  C5_amended resetState 10 3 2 rfl

/-! ### Claim theorem for the handshake (C7) -/

/-- C7: Starting from any session with no server version recorded and an
empty inbound buffer, delivering a frame of exactly two fields — a
decimal version and an arbitrary timestamp — is interpreted as the
negotiation reply: the integer server version and the timestamp are
stored, the state advances past negotiation (`EClient.CONNECTED`, the
spec's `NEGOTIATED`), and the start-API control frame is sent
immediately (followed by the `connectAck` callback). -/
theorem C7_handshake (st : ClientState) (v ts : List ℕ) (n : ℕ)
    (hsv : st.serverVersion = none) (hbuf : st.data = [])
    (hv : parseIntBytes v = some n)
    (h0v : (0 : ℕ) ∉ v) (h0t : (0 : ℕ) ∉ ts)
    (hlen : v.length + ts.length + 2 < 2 ^ 32) :
    (onSocketHasData st (frameBytesOf [v, ts])).1.serverVersion = some n ∧
    (onSocketHasData st (frameBytesOf [v, ts])).1.connTime = some ts ∧
    (onSocketHasData st (frameBytesOf [v, ts])).1.connState =
      ConnState.connected ∧
    (onSocketHasData st (frameBytesOf [v, ts])).1.data = [] ∧
    (onSocketHasData st (frameBytesOf [v, ts])).2 =
      [Action.startApiA, Action.connectAckA] := by
  have hbody : frameBytesOf [v, ts] =
      prefixMsg (([v, ts].map (fun f => f ++ [0])).flatten) := rfl
  set body := ([v, ts].map (fun f => f ++ [(0 : ℕ)])).flatten with hbodydef
  have hblen : body.length = v.length + ts.length + 2 := by
    simp [hbodydef]
    omega
  have hlen4 : (be32enc body.length).length = 4 := rfl
  have hlenbuf : (prefixMsg body).length = 4 + body.length := by
    unfold prefixMsg
    simp [hlen4]
  have htake4 : (prefixMsg body).take 4 = be32enc body.length := by
    unfold prefixMsg
    rw [show (4 : ℕ) = (be32enc body.length).length from hlen4.symm,
      List.take_left]
  have hbe : be32 ((prefixMsg body).take 4) = body.length := by
    rw [htake4, be32_be32enc (by omega)]
  have h4 : ¬ (prefixMsg body).length ≤ 4 := by omega
  have hc : ¬ (prefixMsg body).length < 4 + be32 ((prefixMsg body).take 4) := by
    rw [hbe]; omega
  have htakeAll : (prefixMsg body).take (4 + body.length) = prefixMsg body := by
    rw [List.take_of_length_le (by omega)]
  have hdropAll : (prefixMsg body).drop (4 + body.length) = [] := by
    rw [List.drop_eq_nil_of_le (by omega)]
  have hmsg : (prefixMsg body).drop 4 = body := by
    unfold prefixMsg
    rw [show (4 : ℕ) = (be32enc body.length).length from hlen4.symm,
      List.drop_left]
  have hsplit : (splitSep 0 body).dropLast = [v, ts] := by
    rw [hbodydef]
    rw [splitSep_flatten [v, ts] (by
      intro tk htk
      rcases List.mem_cons.mp htk with rfl | htk
      · exact h0v
      · rcases List.mem_cons.mp htk with rfl | htk
        · exact h0t
        · simp at htk)]
    exact List.dropLast_concat
  have hrun : onSocketHasData st (frameBytesOf [v, ts]) =
      (let st0 := { st with data := [],
                            numBytesRecv := st.numBytesRecv +
                              (frameBytesOf [v, ts]).length }
       let r := processAll st0 (st.data ++ frameBytesOf [v, ts])
       ({ r.1 with data := r.2.1 }, r.2.2)) := rfl
  rw [hrun]
  rw [hbuf, List.nil_append, hbody]
  dsimp only
  rw [processAll_step h4 hc]
  rw [hbe, htakeAll, hmsg, hsplit, hdropAll]
  have hcond : handshakeCondB
      { st with data := ([] : List ℕ),
                numBytesRecv := st.numBytesRecv + (prefixMsg body).length,
                numMsgRecv := st.numMsgRecv + 1 } [v, ts] = true := by
    simp [handshakeCondB, svFalsyB, hsv]
  simp only [handleFrame, hcond, if_true, hv]
  rw [processAll_stop (Or.inl (by simp))]
  simp

/-- C7 concrete instance, Scenario A: delivering the two-field frame
`["151", "20240101 12:00:00"]` to the reset state stores server version
151 and the timestamp, advances the state, and sends start-API. -/
theorem C7_handshake_witness :
    (onSocketHasData resetState (frameBytesOf [strBytes "151",
        strBytes "20240101 12:00:00"])).1.serverVersion = some 151 ∧
    (onSocketHasData resetState (frameBytesOf [strBytes "151",
        strBytes "20240101 12:00:00"])).1.connTime =
      some (strBytes "20240101 12:00:00") ∧
    (onSocketHasData resetState (frameBytesOf [strBytes "151",
        strBytes "20240101 12:00:00"])).1.connState = ConnState.connected ∧
    (onSocketHasData resetState (frameBytesOf [strBytes "151",
        strBytes "20240101 12:00:00"])).1.data = [] ∧
    (onSocketHasData resetState (frameBytesOf [strBytes "151",
        strBytes "20240101 12:00:00"])).2 =
      [Action.startApiA, Action.connectAckA] :=
  C7_handshake resetState (strBytes "151") (strBytes "20240101 12:00:00") 151
    rfl rfl (by decide) (by decide) (by decide) (by decide)

/-! ### Claim theorem for decode-failure containment (C9) -/

/-- C9: If decoding/dispatching a single frame fails (and the frame is
not the handshake reply, whose processing sits outside the
`try/except`), the failure is caught and logged as one `decodeFailedA`
action, the state is untouched by the failing frame, and every remaining
frame is still processed exactly as it would have been — the
stream-processing loop continues. -/
theorem C9_decode_failure_continues (st : ClientState)
    (fs1 : List (List (List ℕ))) (f : List (List ℕ))
    (fs2 : List (List (List ℕ)))
    (hnab : (runFrames st fs1).2.2 = false)
    (hhs : handshakeCondB (runFrames st fs1).1 f = false)
    (herr : decodeFields (runFrames st fs1).1 f = Except.error ()) :
    runFrames st (fs1 ++ f :: fs2) =
      ((runFrames (runFrames st fs1).1 fs2).1,
        (runFrames st fs1).2.1 ++ Action.decodeFailedA ::
          (runFrames (runFrames st fs1).1 fs2).2.1,
        (runFrames (runFrames st fs1).1 fs2).2.2) := by
  rw [runFrames_append fs1 (f :: fs2) st hnab]
  have hf : handleFrame (runFrames st fs1).1 f =
      ((runFrames st fs1).1, [Action.decodeFailedA], false) := by
    rw [handleFrame_decode (runFrames st fs1).1 f hhs, herr]
  have hstep : runFrames (runFrames st fs1).1 (f :: fs2) =
      ((runFrames (runFrames st fs1).1 fs2).1,
        Action.decodeFailedA :: (runFrames (runFrames st fs1).1 fs2).2.1,
        (runFrames (runFrames st fs1).1 fs2).2.2) := by
    simp only [runFrames, hf]
    simp
  rw [hstep]

/-- C9 concrete instance: after a managed-accounts frame, an
undecodable frame `["xy"]` (whose `int(fields[0])` raises) is logged and
skipped while the following next-valid-id frame is still processed. -/
theorem C9_decode_failure_continues_witness :
    runFrames negSt ([frame15du] ++ [strBytes "xy"] :: [frame9_17]) =
      ((runFrames (runFrames negSt [frame15du]).1 [frame9_17]).1,
        (runFrames negSt [frame15du]).2.1 ++ Action.decodeFailedA ::
          (runFrames (runFrames negSt [frame15du]).1 [frame9_17]).2.1,
        (runFrames (runFrames negSt [frame15du]).1 [frame9_17]).2.2) :=
  C9_decode_failure_continues negSt [frame15du] [strBytes "xy"] [frame9_17]
    (by decide) (by decide) rfl

end IBClient

namespace IBClient

/-! ### Claim theorems for the readiness barrier (C1) and request ids
(C6) -/

/-- C1 counterexample: in the negotiated state, delivering a
next-valid-id frame carrying the id `0` and then a managed-accounts
frame leaves the session *not* ready: kind 15 tests Python truthiness of
`self._reqIdSeq`, and a seeded counter of `0` is falsy, so the barrier
is never cleared although both messages were received (the in-code
comment "when both are in then the client is ready" notwithstanding). -/
theorem C1_counterexample :
    negSt.readyEvent = false ∧ negSt.connState = ConnState.connected ∧
    (runFrames negSt [[strBytes "9", strBytes "1", strBytes "0"],
      frame15du]).1.readyEvent = false := by
  refine ⟨by decide, by decide, by decide⟩

/-- C1 amended: for a negotiated, not-yet-ready session, receiving a
next-valid-id frame carrying a *nonzero* id and a managed-accounts frame
— in either order — makes the session ready, and receiving only one of
the two kinds, however many times and with whatever payloads, never
does.  (The original claim, without the nonzero restriction, fails: see
the counterexample.) -/
theorem C1_amended (st : ClientState)
    (hsv : svFalsyB st.serverVersion = false)
    (hr : st.readyEvent = false) (ha : st.accounts = none)
    (hq : st.reqIdSeq = 0) :
    (∀ i9 verB idB i15 verB2 acctB n,
      parseIntBytes i9 = some 9 → parseIntBytes i15 = some 15 →
      parseIntBytes idB = some n → n ≠ 0 →
      (runFrames st [[i9, verB, idB], [i15, verB2, acctB]]).1.readyEvent = true ∧
      (runFrames st [[i15, verB2, acctB], [i9, verB, idB]]).1.readyEvent = true) ∧
    (∀ frames, (∀ f ∈ frames, msgIdOfFrame f = some 9) →
      (runFrames st frames).1.readyEvent = false) ∧
    (∀ frames, (∀ f ∈ frames, msgIdOfFrame f = some 15) →
      (runFrames st frames).1.readyEvent = false) := by
  have hhsAll : ∀ (s : ClientState), svFalsyB s.serverVersion = false →
      ∀ fields, handshakeCondB s fields = false := by
    intro s hs fields
    simp [handshakeCondB, hs]
  refine ⟨?_, ?_, ?_⟩
  · intro i9 verB idB i15 verB2 acctB n h9 h15 hid hn
    have hacc0 : accountsTruthy st.accounts = false := by
      rw [ha]; rfl
    constructor
    · show (runFrames st [[i9, verB, idB], [i15, verB2, acctB]]).1.readyEvent = true
      simp only [runFrames]
      rw [handleFrame_decode st _ (hhsAll st hsv _),
        decodeFields_msg9_eq st i9 verB idB n h9 hid, hacc0]
      simp only [Bool.false_eq_true, if_false]
      rw [handleFrame_decode _ _ (hhsAll _ (by simp [hsv]) _),
        decodeFields_msg15_eq _ i15 verB2 acctB h15]
      simp [hn]
    · show (runFrames st [[i15, verB2, acctB], [i9, verB, idB]]).1.readyEvent = true
      have hstep1 : handleFrame st [i15, verB2, acctB] =
          ({ st with accounts := some (splitSep ',' (bytesToChars acctB)) },
            [Action.interpretA [i15, verB2, acctB]], false) := by
        rw [handleFrame_decode st _ (hhsAll st hsv _),
          decodeFields_msg15_eq st i15 verB2 acctB h15]
        rw [if_neg (by simp [hq])]
      have hstep2 : handleFrame
          { st with accounts := some (splitSep ',' (bytesToChars acctB)) }
          [i9, verB, idB] =
          ({ st with accounts := some (splitSep ',' (bytesToChars acctB)),
                     reqIdSeq := n, readyEvent := true },
            [Action.interpretA [i9, verB, idB]], false) := by
        rw [handleFrame_decode _ _ (hhsAll _ (by simp [hsv]) _),
          decodeFields_msg9_eq _ i9 verB idB n h9 hid]
        rw [if_pos (accountsTruthy_split (bytesToChars acctB) ',')]
      simp only [runFrames]
      rw [hstep1]
      simp only
      rw [hstep2]
      simp [runFrames]
  · intro frames hall
    suffices h : ∀ (frames : List (List (List ℕ))) (s : ClientState),
        (∀ f ∈ frames, msgIdOfFrame f = some 9) →
        svFalsyB s.serverVersion = false → s.accounts = none →
        s.readyEvent = false →
        (svFalsyB (runFrames s frames).1.serverVersion = false ∧
         (runFrames s frames).1.accounts = none ∧
         (runFrames s frames).1.readyEvent = false) by
      exact (h frames st hall hsv ha hr).2.2
    intro frames
    induction frames with
    | nil => intro s _ h1 h2 h3; exact ⟨h1, h2, h3⟩
    | cons f frames ih =>
      intro s hall h1 h2 h3
      have hf : msgIdOfFrame f = some 9 := hall f (List.mem_cons_self f frames)
      have htl : ∀ g ∈ frames, msgIdOfFrame g = some 9 :=
        fun g hg => hall g (List.mem_cons_of_mem f hg)
      show (svFalsyB (runFrames s (f :: frames)).1.serverVersion = false ∧
        (runFrames s (f :: frames)).1.accounts = none ∧
        (runFrames s (f :: frames)).1.readyEvent = false)
      simp only [runFrames]
      rw [handleFrame_decode s f (hhsAll s h1 f)]
      cases hdec : decodeFields s f with
      | error e =>
        simp only
        exact ih s htl h1 h2 h3
      | ok r =>
        simp only
        rcases decodeFields_shape s f r hdec with hst | ⟨v, _, hcases⟩ |
          ⟨a, hm, _⟩
        · rw [hst]
          exact ih s htl h1 h2 h3
        · rcases hcases with ⟨hacc, _⟩ | ⟨_, hr1⟩
          · rw [h2] at hacc
            exact absurd hacc (by simp [accountsTruthy])
          · rw [hr1]
            exact ih _ htl (by simp [h1]) (by simp [h2]) (by simp [h3])
        · rw [hf] at hm
          simp at hm
  · intro frames hall
    suffices h : ∀ (frames : List (List (List ℕ))) (s : ClientState),
        (∀ f ∈ frames, msgIdOfFrame f = some 15) →
        svFalsyB s.serverVersion = false → s.reqIdSeq = 0 →
        s.readyEvent = false →
        (svFalsyB (runFrames s frames).1.serverVersion = false ∧
         (runFrames s frames).1.reqIdSeq = 0 ∧
         (runFrames s frames).1.readyEvent = false) by
      exact (h frames st hall hsv hq hr).2.2
    intro frames
    induction frames with
    | nil => intro s _ h1 h2 h3; exact ⟨h1, h2, h3⟩
    | cons f frames ih =>
      intro s hall h1 h2 h3
      have hf : msgIdOfFrame f = some 15 := hall f (List.mem_cons_self f frames)
      have htl : ∀ g ∈ frames, msgIdOfFrame g = some 15 :=
        fun g hg => hall g (List.mem_cons_of_mem f hg)
      show (svFalsyB (runFrames s (f :: frames)).1.serverVersion = false ∧
        (runFrames s (f :: frames)).1.reqIdSeq = 0 ∧
        (runFrames s (f :: frames)).1.readyEvent = false)
      simp only [runFrames]
      rw [handleFrame_decode s f (hhsAll s h1 f)]
      cases hdec : decodeFields s f with
      | error e =>
        simp only
        exact ih s htl h1 h2 h3
      | ok r =>
        simp only
        rcases decodeFields_shape s f r hdec with hst | ⟨v, hm, _⟩ |
          ⟨a, _, hcases⟩
        · rw [hst]
          exact ih s htl h1 h2 h3
        · rw [hf] at hm
          simp at hm
        · rcases hcases with ⟨hne, _⟩ | ⟨_, hr1⟩
          · exact absurd h2 hne
          · rw [hr1]
            exact ih _ htl (by simp [h1]) (by simp [h2]) (by simp [h3])

/-- C1 amended, concrete instance (Scenario C frames, id 17): both
delivery orders make the negotiated session ready. -/
theorem C1_amended_witness :
    (runFrames negSt [frame9_17, frame15du]).1.readyEvent = true ∧
    (runFrames negSt [frame15du, frame9_17]).1.readyEvent = true :=
  (C1_amended negSt (by decide) (by decide) (by decide) (by decide)).1
    (strBytes "9") (strBytes "1") (strBytes "17") (strBytes "15")
    (strBytes "1") (strBytes "DU1234,DU5678") 17
    (by decide) (by decide) (by decide) (by decide)

/-- C6 counterexample: within one connected session, a second
next-valid-id frame re-seeds `self._reqIdSeq`, so the id 17 is handed
out *twice*: deliver next-valid-id 17 and managed-accounts, call
`getReqId` (→ 17), deliver next-valid-id 17 again, call `getReqId`
(→ 17 again), refuting "no request id is ever returned twice within the
session". -/
theorem C6_counterexample :
    (runSession negSt [SEv.frame frame9_17, SEv.frame frame15du, SEv.getReq,
      SEv.frame frame9_17, SEv.getReq]).2.1 = [17, 17] := by
  decide

/-- C6 amended: while the session is ready, `getReqId` returns the
current counter value and post-increments it; the counter is seeded by
the next-valid-id message; and the ids handed out are strictly
increasing — hence never repeated — along any event sequence containing
no (further) next-valid-id frame, which is the restriction the
counterexample forces (a re-seeding frame can reset the counter onto
already-issued ids).  After next-valid-id `["9","1","17"]` and
managed-accounts `["15","1","DU1234,DU5678"]`, the session is ready and
successive calls return 17 then 18. -/
theorem C6_amended :
    (∀ st : ClientState, st.readyEvent = true →
      getReqId st = Except.ok (st.reqIdSeq,
        { st with reqIdSeq := st.reqIdSeq + 1 })) ∧
    (∀ (st : ClientState) (evs : List SEv), (∀ e ∈ evs, isMsg9Ev e = false) →
      List.Pairwise (· < ·) (runSession st evs).2.1) ∧
    ((runSession negSt [SEv.frame frame9_17, SEv.frame frame15du, SEv.getReq,
        SEv.getReq]).2.1 = [17, 18] ∧
      (runSession negSt [SEv.frame frame9_17, SEv.frame frame15du, SEv.getReq,
        SEv.getReq]).1.readyEvent = true) := by
  refine ⟨?_, ?_, by decide, by decide⟩
  · intro st h
    simp [getReqId, h]
  · intro st evs hall
    exact (runSession_ids_mono evs st hall).1

/-- C6 amended, concrete instance: a ready session hands out its counter
value and increments; along a trace without next-valid-id frames the
issued ids are strictly increasing. -/
theorem C6_amended_witness :
    getReqId { resetState with readyEvent := true, reqIdSeq := 17 } =
      Except.ok (17, { resetState with readyEvent := true, reqIdSeq := 18 }) ∧
    List.Pairwise (· < ·) (runSession negSt
      [SEv.frame frame15du, SEv.getReq, SEv.getReq]).2.1 :=
  ⟨C6_amended.1 { resetState with readyEvent := true, reqIdSeq := 17 } rfl,
   C6_amended.2.1 negSt _ (by decide)⟩

end IBClient
